import Mathlib

/-!
# Verification of the hex-score map generator

A shallow embedding of `generate_hex_score_map.py`, a batch pipeline that
joins a region score table, a per-hex climate table, and a hex geometry
collection, assigns missing region tags by nearest centroid, computes
composite data-center suitability scores with percentile-clipped
normalization, smooths them over k nearest neighbors, and writes the
result back onto the geometry features.

Modelling conventions:
- pandas `NaN` cells are `Option ℚ` with `none` for `NaN`; float arithmetic
  is modelled over `ℚ` with `NaN` propagation made explicit;
- the two haversine implementations in the source compute transcendental
  great-circle distances; every theorem below is parametrized over the
  distance function `d`, so it holds for the haversine instantiation in
  particular (only the argmin / selection structure of the code is at
  stake in the claims, never a concrete trigonometric value);
- a run that raises an uncaught Python exception is an `Except.error`.
-/

namespace HexScore

/-- NaN-propagating addition on nullable floats (pandas column addition). -/
def oadd : Option ℚ → Option ℚ → Option ℚ
  | some a, some b => some (a + b)
  | _, _ => none

/-- NaN-propagating multiplication by a constant. -/
def osmul (c : ℚ) : Option ℚ → Option ℚ
  | some a => some (c * a)
  | none => none

/-- NaN-propagating sum of a float array (`numpy` sum / `mean` numerator). -/
def osum : List (Option ℚ) → Option ℚ
  | [] => some 0
  | x :: xs => oadd x (osum xs)

/-- NaN-propagating mean of a float array (`ndarray.mean`). -/
def omean (l : List (Option ℚ)) : Option ℚ :=
  (osum l).map (fun s => s / (l.length : ℚ))

/-- `self_weight * own + (1 - self_weight) * neighbor_mean` with
`self_weight = SMOOTH_BLEND = 0.25`, NaN-propagating. -/
def oblend (own nb : Option ℚ) : Option ℚ :=
  oadd (osmul (1/4) own) (osmul (3/4) nb)

/-- Linear interpolation into a sorted array at fractional position `h`
(the scheme of `Series.quantile(interpolation="linear")`): with
`i = ⌊h⌋`, the value is `s[i] + (h - i) * (s[i+1] - s[i])`, or the last
element when `i + 1` runs past the end. -/
def interpAt (s : List ℚ) (h : ℚ) : ℚ :=
  let n := s.length
  let i : ℕ := ⌊h⌋₊
  if i + 1 < n then
    s.getD i 0 + (h - i) * (s.getD (i + 1) 0 - s.getD i 0)
  else
    s.getD (n - 1) 0

/-- `pandas.Series.quantile(q)` with the default linear interpolation:
drop the nulls, sort, and interpolate at fractional position
`(n - 1) * q`; `none` when no non-null value exists. -/
def quantile (xs : List (Option ℚ)) (q : ℚ) : Option ℚ :=
  let vals := xs.filterMap id
  if vals.isEmpty then none
  else
    some (interpAt (List.insertionSort (· ≤ ·) vals) (((vals.length : ℚ) - 1) * q))

/-- `np.clip` / `Series.clip` of a value to `[lo, hi]` (with `lo ≤ hi`). -/
def clip (v lo hi : ℚ) : ℚ := min (max v lo) hi

/-- `minmax_clamped`: normalize a column to `[0, 1]` after clipping to the
1st/99th percentile bounds; the divisor degenerates to `1` when the bounds
coincide, and nulls become `0.5` (`fillna(0.5)`).  When the column is
all-null both quantiles are `NaN`, the clip and the scaling keep every
entry `NaN`, and `fillna` maps them all to `0.5`. -/
def minmax_clamped (xs : List (Option ℚ)) : List ℚ :=
  match quantile xs (1/100), quantile xs (99/100) with
  | some lo, some hi =>
    let rng : ℚ := if hi > lo then hi - lo else 1
    xs.map (fun x => match x with
      | some v => (clip v lo hi - lo) / rng
      | none => 1/2)
  | _, _ => xs.map (fun _ => 1/2)

/-! ## Data model -/

/-- JSON scalar stored in a feature's property map. -/
inductive JVal where
  | null : JVal
  | int : ℤ → JVal
  | num : ℚ → JVal
  | str : String → JVal
  | bool : Bool → JVal
deriving DecidableEq, Repr

/-- A geometry feature: a property map (a JSON object, insertion-ordered
association list) plus an opaque geometry payload the pipeline never
touches. -/
structure Feature where
  props : List (String × JVal)
  geom : ℕ
deriving DecidableEq, Repr

instance : Inhabited Feature := ⟨⟨[], 0⟩⟩

/-- Row of `datacenter_scores_real.csv`: region name, centroid, scores. -/
structure RegionRow where
  region : String
  lat : ℚ
  lon : ℚ
  sustainability : ℚ
  profitability : ℚ
deriving DecidableEq, Repr

instance : Inhabited RegionRow := ⟨⟨"", 0, 0, 0, 0⟩⟩

/-- Row of `hex_weather_data_all.csv` (the columns the script reads; a
possibly present `region` column is dropped by the loader). -/
structure ClimRow where
  hex_id : ℤ
  local_temp_c : Option ℚ
  elevation_m : Option ℚ
  region : Option String
deriving DecidableEq, Repr

/-- Hex row after `load_base_data`: climate columns plus `lat`, `lon` and
`region` merged in from the geometry collection.  `dist_to_region_m` is
`none` here; the column only appears if region assignment runs (reading a
missing column through `row.get` yields `None`, like a `NaN` cell). -/
structure HexRow where
  hex_id : ℤ
  local_temp_c : Option ℚ
  elevation_m : Option ℚ
  lat : Option ℚ
  lon : Option ℚ
  region : Option String
  dist_to_region_m : Option ℚ
deriving DecidableEq, Repr

instance : Inhabited HexRow := ⟨⟨0, none, none, none, none, none, none⟩⟩

/-- Hex row after the left merge with the region score table on
`region`: unmatched or null-region hexes get null score columns. -/
structure MergedRow where
  hex_id : ℤ
  local_temp_c : Option ℚ
  elevation_m : Option ℚ
  lat : Option ℚ
  lon : Option ℚ
  region : Option String
  dist_to_region_m : Option ℚ
  sustainability : Option ℚ
  profitability : Option ℚ
deriving DecidableEq, Repr

instance : Inhabited MergedRow :=
  ⟨⟨0, none, none, none, none, none, none, none, none⟩⟩

/-- Fully scored hex row (output of `compute_hex_scores`). -/
structure ScoredRow where
  hex_id : ℤ
  local_temp_c : Option ℚ
  elevation_m : Option ℚ
  lat : Option ℚ
  lon : Option ℚ
  region : Option String
  dist_to_region_m : Option ℚ
  sustainability : Option ℚ
  profitability : Option ℚ
  temp_norm : ℚ
  temp_cool_score : ℚ
  elev_norm : ℚ
  sustainability_hex : Option ℚ
  profitability_hex : Option ℚ
  dc_score_hex : Option ℚ
  dc_score_hex_smooth : Option ℚ
deriving DecidableEq, Repr

instance : Inhabited ScoredRow :=
  ⟨⟨0, none, none, none, none, none, none, none, none, 0, 0, 0, none, none,
    none, none⟩⟩

/-! ## Loader (`load_base_data`) -/

/-- First lookup of a key in a JSON object. -/
def lookupProp (k : String) : List (String × JVal) → Option JVal
  | [] => none
  | (k2, v) :: rest => if k2 = k then some v else lookupProp k rest

/-- The `hex_id` carried by a feature's properties, when it is an
integer (the identifiers are integers end to end). -/
def featHexId (f : Feature) : Option ℤ :=
  match lookupProp "hex_id" f.props with
  | some (JVal.int z) => some z
  | _ => none

/-- A numeric property (`lat` / `lon`); JSON numbers may parse as ints. -/
def featNum (f : Feature) (k : String) : Option ℚ :=
  match lookupProp k f.props with
  | some (JVal.num q) => some q
  | some (JVal.int z) => some (z : ℚ)
  | _ => none

/-- A string property (`region`). -/
def featStr (f : Feature) (k : String) : Option String :=
  match lookupProp k f.props with
  | some (JVal.str s) => some s
  | _ => none

/-- `hex_id`/`lat`/`lon` extracted from a feature, mirroring the loader's
`if hid is not None and lat is not None and lon is not None` filter. -/
def latLonRow (f : Feature) : Option (ℤ × ℚ × ℚ) :=
  match featHexId f, featNum f "lat", featNum f "lon" with
  | some h, some la, some lo => some (h, la, lo)
  | _, _, _ => none

/-- `hex_id`/`region` extracted from a feature. -/
def regionRowOf (f : Feature) : Option (ℤ × String) :=
  match featHexId f, featStr f "region" with
  | some h, some r => some (h, r)
  | _, _ => none

/-- `drop_duplicates("hex_id")`: keep the first row for each key. -/
def dedupFirst (key : α → ℤ) (seen : List ℤ) : List α → List α
  | [] => []
  | x :: xs =>
    if key x ∈ seen then dedupFirst key seen xs
    else x :: dedupFirst key (key x :: seen) xs

/-- `load_base_data` on already-parsed inputs: extract coordinate and
region-tag tables from the geometry features, deduplicate them by
`hex_id` (first occurrence wins) and left-merge both onto the climate
table; any pre-existing `region` column of the climate table is dropped
first.  When one of the extracted row lists is empty,
`pd.DataFrame([])` has no columns at all, so the merge on `hex_id`
raises a `KeyError` which the script does not catch. -/
def load_base_data (clim : List ClimRow) (features : List Feature) :
    Except String (List HexRow) :=
  let lat_lon_rows := features.filterMap latLonRow
  let region_rows := features.filterMap regionRowOf
  let latlon_df := dedupFirst (fun r => r.1) [] lat_lon_rows
  let region_df := dedupFirst (fun r => r.1) [] region_rows
  if lat_lon_rows.isEmpty then
    Except.error "KeyError: hex_id (merge with the column-less lat/lon frame)"
  else if region_rows.isEmpty then
    Except.error "KeyError: hex_id (merge with the column-less region frame)"
  else
    Except.ok (clim.map (fun c =>
      let ll := latlon_df.find? (fun r => r.1 == c.hex_id)
      let rg := region_df.find? (fun r => r.1 == c.hex_id)
      { hex_id := c.hex_id
        local_temp_c := c.local_temp_c
        elevation_m := c.elevation_m
        lat := ll.map (fun r => r.2.1)
        lon := ll.map (fun r => r.2.2)
        region := rg.map (fun r => r.2)
        dist_to_region_m := none }))

/-! ## Region assignment (`assign_region_if_missing`)

Every distance computation is parametrized by
`d : ℚ → ℚ → ℚ → ℚ → ℚ`, standing for the script's vectorized haversine
`(lat1, lon1, lat2, lon2) ↦ 6371000 * c`. -/

/-- `np.argmin`: index of the first minimal entry. -/
def argminIdx : List ℚ → ℕ
  | [] => 0
  | [_] => 0
  | x :: y :: rest =>
    let j := argminIdx (y :: rest)
    if (y :: rest).getD j 0 < x then j + 1 else 0

/-- Nearest region centroid: the distance array over the region table,
its `argmin`, and the region name and distance found there. -/
def nearestRegion (d : ℚ → ℚ → ℚ → ℚ → ℚ) (scores : List RegionRow)
    (la lo : ℚ) : Option (String × ℚ) :=
  match scores with
  | [] => none
  | _ :: _ =>
    some ((scores.getD (argminIdx (scores.map (fun s => d la lo s.lat s.lon)))
        default).region,
      (scores.map (fun s => d la lo s.lat s.lon)).getD
        (argminIdx (scores.map (fun s => d la lo s.lat s.lon))) 0)

/-- The `for _, row in hex_df.iterrows()` loop: process every row in
order, stopping at the first uncaught exception. -/
def mapExcept (f : α → Except String β) : List α → Except String (List β)
  | [] => Except.ok []
  | x :: xs =>
    match f x with
    | Except.error e => Except.error e
    | Except.ok y =>
      match mapExcept f xs with
      | Except.error e => Except.error e
      | Except.ok ys => Except.ok (y :: ys)

/-- One row of the assignment loop: rows with missing coordinates keep
their region and get a null distance; the rest get the nearest centroid,
filled into `region` only where it was null (`fillna`), with the
distance always recorded.  `np.argmin` of an empty distance array
raises. -/
def assignRow (d : ℚ → ℚ → ℚ → ℚ → ℚ) (scores : List RegionRow)
    (h : HexRow) : Except String HexRow :=
  match h.lat, h.lon with
  | some la, some lo =>
    match nearestRegion d scores la lo with
    | none => Except.error "ValueError: argmin of an empty sequence"
    | some (r, dist) =>
      Except.ok { h with region := some (h.region.getD r),
                         dist_to_region_m := some dist }
  | _, _ => Except.ok { h with dist_to_region_m := none }

/-- `assign_region_if_missing`: a no-op when every region tag is present;
otherwise run the row loop over all rows. -/
def assign_region_if_missing (d : ℚ → ℚ → ℚ → ℚ → ℚ) (hexes : List HexRow)
    (scores : List RegionRow) : Except String (List HexRow) :=
  if hexes.all (fun h => h.region.isSome) then Except.ok hexes
  else mapExcept (assignRow d scores) hexes

/-! ## Scorer (`compute_hex_scores`) -/

/-- Left merge of the hex table onto the region score table by region
name (`main`): a hex with a null or unmatched region gets null score
columns; each matching region row produces one output row. -/
def merge_scores (hexes : List HexRow) (scores : List RegionRow) :
    List MergedRow :=
  hexes.flatMap (fun h =>
    let mk : Option ℚ → Option ℚ → MergedRow := fun s p =>
      { hex_id := h.hex_id, local_temp_c := h.local_temp_c,
        elevation_m := h.elevation_m, lat := h.lat, lon := h.lon,
        region := h.region, dist_to_region_m := h.dist_to_region_m,
        sustainability := s, profitability := p }
    match h.region with
    | none => [mk none none]
    | some r =>
      match scores.filter (fun s => s.region == r) with
      | [] => [mk none none]
      | ms => ms.map (fun s => mk (some s.sustainability) (some s.profitability)))

/-- Tunables of the scorer (`TEMP_WEIGHT`, `ELEV_WEIGHT`, `SMOOTH_K`,
`SMOOTH_BLEND` is the `1/4` of `oblend`). -/
def TEMP_WEIGHT : ℚ := 15/100

def ELEV_WEIGHT : ℚ := 5/100

def SMOOTH_K : ℕ := 20

/-- Rows whose coordinates are both non-null
(`valid = ~np.isnan(coords).any(axis=1)`), as a list of indices. -/
def validIndices (coords : List (Option ℚ × Option ℚ)) : List ℕ :=
  (List.range coords.length).filter (fun i =>
    (coords.getD i (none, none)).1.isSome && (coords.getD i (none, none)).2.isSome)

/-- The coordinate pair of row `i`, once known to be valid. -/
def coordAt (coords : List (Option ℚ × Option ℚ)) (i : ℕ) : ℚ × ℚ :=
  ((coords.getD i (none, none)).1.getD 0, (coords.getD i (none, none)).2.getD 0)

/-- Row `j` of the pairwise distance matrix over the valid rows, with
`np.fill_diagonal(dist, np.inf)` as `⊤`. -/
def distRow (d : ℚ → ℚ → ℚ → ℚ → ℚ) (cv : List (ℚ × ℚ)) (j j2 : ℕ) :
    WithTop ℚ :=
  if j = j2 then ⊤
  else ((d (cv.getD j (0, 0)).1 (cv.getD j (0, 0)).2
           (cv.getD j2 (0, 0)).1 (cv.getD j2 (0, 0)).2 : ℚ) : WithTop ℚ)

/-- Comparison key used to model `np.argpartition` deterministically:
order by distance, breaking ties by row index. -/
def pairLe (p q : WithTop ℚ × ℕ) : Prop :=
  p.1 < q.1 ∨ (p.1 = q.1 ∧ p.2 ≤ q.2)

instance : DecidableRel pairLe := fun p q =>
  inferInstanceAs (Decidable (p.1 < q.1 ∨ (p.1 = q.1 ∧ p.2 ≤ q.2)))

/-- Row `j` of the distance matrix paired with column indices, the
input to the arg-selection. -/
def knnPairs (d : ℚ → ℚ → ℚ → ℚ → ℚ) (cv : List (ℚ × ℚ)) (j : ℕ) :
    List (WithTop ℚ × ℕ) :=
  (List.range cv.length).map (fun j2 => (distRow d cv j j2, j2))

/-- `knn_idx = np.argpartition(dist, kth=k_eff-1, axis=1)[:, :k_eff]` for
row `j`: the positions of the `k_eff` smallest entries of row `j` of the
distance matrix (ties resolved towards smaller row index). -/
def knnSelect (d : ℚ → ℚ → ℚ → ℚ → ℚ) (cv : List (ℚ × ℚ)) (keff j : ℕ) :
    List ℕ :=
  ((List.insertionSort pairLe (knnPairs d cv j)).take keff).map Prod.snd

/-- `k_eff = max(1, min(k, valid_count - 1))`. -/
def kEff (m : ℕ) : ℕ := max 1 (min SMOOTH_K (m - 1))

/-- `knn_smooth`: raw values pass through when fewer than 2 rows have
valid coordinates; otherwise each valid row is blended with the mean of
its `k_eff` nearest valid neighbors, invalid rows keep their value. -/
def knn_smooth (d : ℚ → ℚ → ℚ → ℚ → ℚ)
    (coords : List (Option ℚ × Option ℚ)) (vals : List (Option ℚ)) :
    List (Option ℚ) :=
  let vi := validIndices coords
  let m := vi.length
  if m < 2 then vals
  else
    let cv := vi.map (coordAt coords)
    (List.range coords.length).map (fun i =>
      if (coords.getD i (none, none)).1.isSome &&
          (coords.getD i (none, none)).2.isSome then
        let j := vi.indexOf i
        let nbr := (knnSelect d cv (kEff m) j).map
          (fun j2 => vals.getD (vi.getD j2 0) none)
        oblend (vals.getD i none) (omean nbr)
      else vals.getD i none)

/-- The original indices of the neighbors actually averaged for hex `i`
by `knn_smooth` (positions into the valid submatrix mapped back through
the valid-index list). -/
def knnNeighbors (d : ℚ → ℚ → ℚ → ℚ → ℚ)
    (coords : List (Option ℚ × Option ℚ)) (i : ℕ) : List ℕ :=
  let vi := validIndices coords
  (knnSelect d (vi.map (coordAt coords)) (kEff vi.length) (vi.indexOf i)).map
    (fun j2 => vi.getD j2 0)

/-- `compute_hex_scores`: percentile-clipped normalization of temperature
and elevation, the weighted sustainability/profitability/composite
scores, then k-nearest-neighbor smoothing of the composite. -/
def compute_hex_scores (d : ℚ → ℚ → ℚ → ℚ → ℚ) (rows : List MergedRow) :
    List ScoredRow :=
  let tns := minmax_clamped (rows.map (fun r => r.local_temp_c))
  let ens := minmax_clamped (rows.map (fun r => r.elevation_m))
  let stage1 := (List.range rows.length).map (fun i =>
    let r := rows.getD i default
    let tn := tns.getD i 0
    let en := ens.getD i 0
    let tcs := 1 - tn
    let sh := r.sustainability.map (fun s => s + tcs * TEMP_WEIGHT + en * ELEV_WEIGHT)
    let ph := r.profitability
    { hex_id := r.hex_id, local_temp_c := r.local_temp_c,
      elevation_m := r.elevation_m, lat := r.lat, lon := r.lon,
      region := r.region, dist_to_region_m := r.dist_to_region_m,
      sustainability := r.sustainability, profitability := r.profitability,
      temp_norm := tn, temp_cool_score := tcs, elev_norm := en,
      sustainability_hex := sh, profitability_hex := ph,
      dc_score_hex := oadd (osmul (6/10) sh) (osmul (4/10) ph),
      dc_score_hex_smooth := none : ScoredRow })
  let coords := rows.map (fun r => (r.lat, r.lon))
  let vals := stage1.map (fun s => s.dc_score_hex)
  let sm := knn_smooth d coords vals
  (List.range stage1.length).map (fun i =>
    { stage1.getD i default with dc_score_hex_smooth := sm.getD i none })

/-! ## Writer (`update_features`) -/

/-- A nullable number written back into JSON (`NaN` serialized for a
null cell; rendered as `null` here). -/
def jnum : Option ℚ → JVal
  | some q => JVal.num q
  | none => JVal.null

/-- A nullable string written back into JSON. -/
def jstr : Option String → JVal
  | some s => JVal.str s
  | none => JVal.null

/-- The fourteen property keys `update_features` writes. -/
def WRITTEN : List String :=
  ["hex_id", "region", "lat", "lon", "local_temp_c", "elevation_m",
   "temp_cool_score", "elev_norm", "dist_to_region", "profitability",
   "sustainability", "dc_score", "dc_score_smooth", "dc_score_temp"]

/-- The fourteen key/value pairs written for one scored row
(`dc_score_temp` duplicates `dc_score_hex`). -/
def rowProps (row : ScoredRow) : List (String × JVal) :=
  [("hex_id", JVal.int row.hex_id),
   ("region", jstr row.region),
   ("lat", jnum row.lat),
   ("lon", jnum row.lon),
   ("local_temp_c", jnum row.local_temp_c),
   ("elevation_m", jnum row.elevation_m),
   ("temp_cool_score", JVal.num row.temp_cool_score),
   ("elev_norm", JVal.num row.elev_norm),
   ("dist_to_region", jnum row.dist_to_region_m),
   ("profitability", jnum row.profitability_hex),
   ("sustainability", jnum row.sustainability_hex),
   ("dc_score", jnum row.dc_score_hex),
   ("dc_score_smooth", jnum row.dc_score_hex_smooth),
   ("dc_score_temp", jnum row.dc_score_hex)]

/-- `dict.__setitem__`: replace the value of an existing key in place,
append a fresh key at the end. -/
def setProp : List (String × JVal) → String → JVal → List (String × JVal)
  | [], k, v => [(k, v)]
  | (k2, v2) :: rest, k, v =>
    if k2 = k then (k, v) :: rest else (k2, v2) :: setProp rest k v

/-- `props.update({...})` with the fourteen computed fields, preserving
every other key, followed by `feat["properties"] = props`. -/
def applyProps (f : Feature) (row : ScoredRow) : Feature :=
  { f with props := (rowProps row).foldl (fun ps kv => setProp ps kv.1 kv.2) f.props }

/-- The position `by_hex[hid]` points at: Python dict comprehension keeps
the last feature inserted for each key. -/
def lastMatch (features : List Feature) (hid : ℤ) : Option ℕ :=
  ((List.range features.length).filter (fun p =>
    decide (featHexId (features.getD p default) = some hid))).getLast?

/-- One iteration of the writer loop: a scored row updates the feature
`by_hex` associates with its `hex_id`, or nothing when no feature
matches. -/
def updateStep (features : List Feature) (fs : List Feature)
    (row : ScoredRow) : List Feature :=
  match lastMatch features row.hex_id with
  | none => fs
  | some p => fs.set p (applyProps (fs.getD p default) row)

/-- `update_features`: for each scored row in order, update the feature
`by_hex` associates with its `hex_id` (skipping rows with no match); the
dictionary is built once from the input features, the list itself is
returned unchanged in length and order. -/
def update_features (features : List Feature) (scored : List ScoredRow) :
    List Feature :=
  scored.foldl (updateStep features) features

/-! ## The pipeline (`main`, file I/O abstracted away) -/

/-- `main`: load, assign regions, merge region scores, score, and write
the updated features (the output `FeatureCollection` wraps exactly this
list); an uncaught exception in an earlier stage aborts the run before
anything is written. -/
def exBind {α β : Type} (x : Except String α) (f : α → Except String β) :
    Except String β :=
  match x with
  | Except.error e => Except.error e
  | Except.ok a => f a

def run_pipeline (d : ℚ → ℚ → ℚ → ℚ → ℚ) (scores : List RegionRow)
    (clim : List ClimRow) (features : List Feature) :
    Except String (List Feature) :=
  exBind (load_base_data clim features) (fun hexes =>
    exBind (assign_region_if_missing d hexes scores) (fun hexes2 =>
      Except.ok (update_features features
        (compute_hex_scores d (merge_scores hexes2 scores)))))

/-- The single-hex population of the spec's end-to-end example, after the
merge with region A (sustainability 0.5, profitability 0.5): temperature
20 °C, elevation 100 m. -/
def exampleRow : MergedRow :=
  { hex_id := 1, local_temp_c := some 20, elevation_m := some 100,
    lat := some (1/100), lon := some (1/100), region := some "A",
    dist_to_region_m := none, sustainability := some (1/2),
    profitability := some (1/2) }

/-- A two-hex table for the region-assignment claims: the first hex has a
pre-existing region tag and valid coordinates, the second has no region
tag (so the assignment stage runs). -/
def c2Hexes : List HexRow :=
  [{ hex_id := 1, local_temp_c := none, elevation_m := none, lat := some 9,
     lon := some 9, region := some "A", dist_to_region_m := none },
   { hex_id := 2, local_temp_c := none, elevation_m := none, lat := some 9,
     lon := some 9, region := none, dist_to_region_m := none }]

/-- A one-region score table paired with `c2Hexes`. -/
def c2Scores : List RegionRow :=
  [{ region := "A", lat := 0, lon := 0, sustainability := 1/2,
     profitability := 1/2 }]

/-- The rows `assign_region_if_missing` produces on `c2Hexes` and
`c2Scores` under the everywhere-zero distance function. -/
def c2Out : List HexRow :=
  [{ hex_id := 1, local_temp_c := none, elevation_m := none, lat := some 9,
     lon := some 9, region := some "A", dist_to_region_m := some 0 },
   { hex_id := 2, local_temp_c := none, elevation_m := none, lat := some 9,
     lon := some 9, region := some "A", dist_to_region_m := some 0 }]

/-- The rows `assign_region_if_missing` produces on `c2Hexes` and
`c2Scores` under the squared-chord distance `c4D`: both hexes sit at
(9, 9) and the only centroid at (0, 0), so the recorded distance is
9·9 + 9·9 = 162 — also for hex 0, whose region tag pre-existed. -/
def c2OutD : List HexRow :=
  [{ hex_id := 1, local_temp_c := none, elevation_m := none, lat := some 9,
     lon := some 9, region := some "A", dist_to_region_m := some 162 },
   { hex_id := 2, local_temp_c := none, elevation_m := none, lat := some 9,
     lon := some 9, region := some "A", dist_to_region_m := some 162 }]

/-- A one-feature geometry collection carrying coordinates and a region
tag, paired with an empty climate table. -/
def c3Features : List Feature :=
  [{ props := [("hex_id", JVal.int 1), ("lat", JVal.num 1),
               ("lon", JVal.num 1), ("region", JVal.str "A")], geom := 7 }]

/-- A one-feature geometry collection whose feature has coordinates but
no region property. -/
def c10Features : List Feature :=
  [{ props := [("hex_id", JVal.int 1), ("lat", JVal.num 1),
               ("lon", JVal.num 1)], geom := 3 }]

/-- A two-feature collection and one scored row for the writer claims:
the row matches the first feature only. -/
def c9Features : List Feature :=
  [{ props := [("hex_id", JVal.int 1), ("extra", JVal.num 7)], geom := 42 },
   { props := [("hex_id", JVal.int 2), ("other", JVal.bool true)], geom := 43 }]

/-- A scored row with `hex_id` 1 (matches the first `c9Features`
feature and no other). -/
def c9Row : ScoredRow :=
  { hex_id := 1, local_temp_c := none, elevation_m := none, lat := none,
    lon := none, region := some "A", dist_to_region_m := none,
    sustainability := none, profitability := none, temp_norm := 0,
    temp_cool_score := 1, elev_norm := 0, sustainability_hex := none,
    profitability_hex := none, dc_score_hex := some (59/100),
    dc_score_hex_smooth := none }

/-- A squared-chord stand-in distance used to instantiate the smoothing
claims at concrete inputs. -/
def c4D : ℚ → ℚ → ℚ → ℚ → ℚ := fun la1 lo1 la2 lo2 =>
  (la1 - la2) * (la1 - la2) + (lo1 - lo2) * (lo1 - lo2)

/-- Three valid hex coordinates for the smoothing claims. -/
def c4Coords : List (Option ℚ × Option ℚ) :=
  [(some 0, some 0), (some 1, some 0), (some 10, some 0)]

/-- Composite scores matching `c4Coords`. -/
def c4Vals : List (Option ℚ) := [some 1, some 2, some 4]

/-! ## Lemmas about the normalizer -/

theorem getD_of_not_lt {l : List ℚ} {i : ℕ} {d : ℚ} (h : ¬ i < l.length) :
    l.getD i d = d := by
  rw [List.getD_eq_getElem?_getD, List.getElem?_eq_none_iff.2 (by omega),
    Option.getD_none]

theorem sorted_getD_mono {s : List ℚ} (hs : List.Sorted (· ≤ ·) s) {i j : ℕ}
    (hij : i ≤ j) (hj : j < s.length) : s.getD i 0 ≤ s.getD j 0 := by
  have hi : i < s.length := Nat.lt_of_le_of_lt hij hj
  rcases Nat.lt_or_ge i j with h | h
  · rw [List.getD_eq_getElem _ 0 hi, List.getD_eq_getElem _ 0 hj]
    exact hs.rel_get_of_lt h
  · have : i = j := le_antisymm hij h
    subst this
    exact le_refl _

theorem interpAt_mono {s : List ℚ} (hs : List.Sorted (· ≤ ·) s) {a b : ℚ}
    (h0 : 0 ≤ a) (hab : a ≤ b) : interpAt s a ≤ interpAt s b := by
  have h0b : 0 ≤ b := le_trans h0 hab
  have hij : ⌊a⌋₊ ≤ ⌊b⌋₊ := Nat.floor_mono hab
  unfold interpAt
  by_cases h1 : ⌊a⌋₊ + 1 < s.length
  · have hfa : a - (⌊a⌋₊ : ℚ) ≤ 1 := by
      have := Nat.lt_floor_add_one a
      linarith
    have hda : s.getD ⌊a⌋₊ 0 ≤ s.getD (⌊a⌋₊ + 1) 0 :=
      sorted_getD_mono hs (Nat.le_succ _) h1
    by_cases h2 : ⌊b⌋₊ + 1 < s.length
    · simp only [if_pos h1, if_pos h2]
      rcases Nat.lt_or_ge ⌊a⌋₊ ⌊b⌋₊ with hlt | hge
      · have hfb : 0 ≤ b - (⌊b⌋₊ : ℚ) := sub_nonneg.2 (Nat.floor_le h0b)
        have hdb : s.getD ⌊b⌋₊ 0 ≤ s.getD (⌊b⌋₊ + 1) 0 :=
          sorted_getD_mono hs (Nat.le_succ _) h2
        have hchain : s.getD (⌊a⌋₊ + 1) 0 ≤ s.getD ⌊b⌋₊ 0 :=
          sorted_getD_mono hs hlt (by omega)
        nlinarith [mul_le_mul_of_nonneg_right hfa (sub_nonneg.2 hda),
          mul_nonneg hfb (sub_nonneg.2 hdb)]
      · have heq : (⌊a⌋₊ : ℕ) = ⌊b⌋₊ := le_antisymm hij hge
        rw [heq]
        have hfab : a - (⌊b⌋₊ : ℚ) ≤ b - (⌊b⌋₊ : ℚ) := by linarith
        have hd : s.getD ⌊b⌋₊ 0 ≤ s.getD (⌊b⌋₊ + 1) 0 := heq ▸ hda
        nlinarith [mul_le_mul_of_nonneg_right hfab (sub_nonneg.2 hd)]
    · simp only [if_pos h1, if_neg h2]
      have hle : s.getD (⌊a⌋₊ + 1) 0 ≤ s.getD (s.length - 1) 0 :=
        sorted_getD_mono hs (by omega) (by omega)
      nlinarith [mul_le_mul_of_nonneg_right hfa (sub_nonneg.2 hda)]
  · have h2 : ¬ (⌊b⌋₊ + 1 < s.length) := by omega
    simp only [if_neg h1, if_neg h2]
    exact le_refl _

theorem quantile_eq_some {xs : List (Option ℚ)} (q : ℚ)
    (h : xs.filterMap id ≠ []) :
    quantile xs q = some (interpAt (List.insertionSort (· ≤ ·) (xs.filterMap id))
      ((((xs.filterMap id).length : ℚ) - 1) * q)) := by
  simp only [quantile, List.isEmpty_iff, h, if_false]

theorem quantile_eq_none_iff (xs : List (Option ℚ)) (q : ℚ) :
    quantile xs q = none ↔ xs.filterMap id = [] := by
  by_cases h : xs.filterMap id = []
  · simp [quantile, h]
  · rw [quantile_eq_some q h]
    simp only [reduceCtorEq, false_iff]
    exact h

theorem interpAt_const {s : List ℚ} {c : ℚ} (hc : ∀ v ∈ s, v = c)
    (hlen : 0 < s.length) (h : ℚ) : interpAt s h = c := by
  have hget : ∀ i, i < s.length → s.getD i 0 = c := by
    intro i hi
    rw [List.getD_eq_getElem _ 0 hi]
    exact hc _ (List.getElem_mem hi)
  simp only [interpAt]
  split
  · rename_i hif
    rw [hget _ (by omega), hget _ hif]
    ring
  · rw [hget _ (by omega)]

theorem quantile_le_quantile {xs : List (Option ℚ)} {q1 q2 lo hi : ℚ}
    (h0 : 0 ≤ q1) (h12 : q1 ≤ q2)
    (hlo : quantile xs q1 = some lo) (hhi : quantile xs q2 = some hi) :
    lo ≤ hi := by
  have hne : ¬ (xs.filterMap id).isEmpty := by
    intro hc
    rw [List.isEmpty_iff] at hc
    rw [(quantile_eq_none_iff xs q1).2 hc] at hlo
    exact Option.noConfusion hlo
  have hn1 : 1 ≤ (xs.filterMap id).length := by
    rcases Nat.eq_zero_or_pos (xs.filterMap id).length with h | h
    · exact absurd (List.isEmpty_iff.2 (List.length_eq_zero.1 h)) hne
    · exact h
  unfold quantile at hlo hhi
  rw [if_neg hne] at hlo hhi
  have hs : List.Sorted (· ≤ ·) (List.insertionSort (· ≤ ·) (xs.filterMap id)) :=
    List.sorted_insertionSort _ _
  have hnn : (0 : ℚ) ≤ ((xs.filterMap id).length : ℚ) - 1 := by
    have : (1 : ℚ) ≤ ((xs.filterMap id).length : ℚ) := by exact_mod_cast hn1
    linarith
  have := interpAt_mono hs (mul_nonneg hnn h0)
    (mul_le_mul_of_nonneg_left h12 hnn)
  rw [Option.some_inj.1 hlo, Option.some_inj.1 hhi] at *
  exact this

theorem quantile_const {xs : List (Option ℚ)} {c : ℚ} (q : ℚ)
    (hc : ∀ v ∈ xs.filterMap id, v = c) (hne : xs.filterMap id ≠ []) :
    quantile xs q = some c := by
  rw [quantile_eq_some q hne]
  congr 1
  have hsc : ∀ v ∈ List.insertionSort (· ≤ ·) (xs.filterMap id), v = c := by
    intro v hv
    exact hc v ((List.perm_insertionSort _ _).mem_iff.1 hv)
  have hlen : 0 < (List.insertionSort (· ≤ ·) (xs.filterMap id)).length := by
    rw [(List.perm_insertionSort (· ≤ ·) (xs.filterMap id)).length_eq]
    exact List.length_pos.2 hne
  exact interpAt_const hsc hlen _

theorem minmax_clamped_length (xs : List (Option ℚ)) :
    (minmax_clamped xs).length = xs.length := by
  unfold minmax_clamped
  split <;> simp

/-- C6: `minmax_clamped` maps every entry into `[0, 1]`: null entries
become `0.5`, and when the 1st/99th percentile bounds coincide (in
particular for a constant-valued column) the divisor is `1`, not `0`,
so every non-null entry of a constant column maps to `0`. -/
theorem minmax_clamped_safe (xs : List (Option ℚ)) :
    (∀ y ∈ minmax_clamped xs, 0 ≤ y ∧ y ≤ 1) ∧
    (∀ i, i < xs.length → xs.getD i none = none →
      (minmax_clamped xs).getD i 0 = 1/2) ∧
    (∀ c : ℚ, (∀ x ∈ xs, x = none ∨ x = some c) →
      ∀ i, i < xs.length → xs.getD i none = some c →
      (minmax_clamped xs).getD i 0 = 0) := by
  refine ⟨?_, ?_, ?_⟩
  · intro y hy
    rcases hq1 : quantile xs (1/100) with _ | lo
    · rcases hq2 : quantile xs (99/100) with _ | hi <;>
        simp only [minmax_clamped, hq1, hq2, List.mem_map] at hy <;>
        rcases hy with ⟨x, _, rfl⟩ <;> norm_num
    · rcases hq2 : quantile xs (99/100) with _ | hi
      · exfalso
        rw [quantile_eq_none_iff] at hq2
        rw [(quantile_eq_none_iff xs (1/100)).2 hq2] at hq1
        exact Option.noConfusion hq1
      · simp only [minmax_clamped, hq1, hq2, List.mem_map] at hy
        rcases hy with ⟨x, _, rfl⟩
        have hlohi : lo ≤ hi :=
          quantile_le_quantile (by norm_num) (by norm_num) hq1 hq2
        rcases x with _ | v
        · norm_num
        · have hclo : lo ≤ clip v lo hi := le_min (le_max_right v lo) hlohi
          have hchi : clip v lo hi ≤ hi := min_le_right _ _
          by_cases hgt : hi > lo
          · simp only [if_pos hgt]
            constructor
            · exact div_nonneg (by linarith) (by linarith)
            · rw [div_le_one (by linarith)]
              linarith
          · simp only [if_neg hgt]
            have heq : hi = lo := le_antisymm (le_of_not_lt hgt) hlohi
            subst heq
            have hcl : clip v hi hi = hi := min_eq_right (le_max_right v hi)
            rw [hcl]
            norm_num
  · intro i hi hnone
    have hmap : ∀ f : Option ℚ → ℚ, f none = 1/2 →
        (xs.map f).getD i 0 = 1/2 := by
      intro f hf
      rw [List.getD_eq_getElem _ 0 (by simpa), List.getElem_map]
      rw [List.getD_eq_getElem _ none hi] at hnone
      rw [hnone, hf]
    rcases hq1 : quantile xs (1/100) with _ | lo <;>
      rcases hq2 : quantile xs (99/100) with _ | hi2 <;>
      simp only [minmax_clamped, hq1, hq2] <;> exact hmap _ rfl
  · intro c hconst i hi hsome
    have hcv : ∀ v ∈ xs.filterMap id, v = c := by
      intro v hv
      simp only [List.mem_filterMap, id] at hv
      rcases hv with ⟨x, hx, hxv⟩
      rcases hconst x hx with rfl | rfl
      · exact Option.noConfusion hxv
      · exact (Option.some_inj.1 hxv).symm
    have hne : xs.filterMap id ≠ [] := by
      intro hc
      have : c ∈ xs.filterMap id := by
        simp only [List.mem_filterMap, id]
        refine ⟨some c, ?_, rfl⟩
        rw [List.getD_eq_getElem _ none hi] at hsome
        rw [← hsome]
        exact List.getElem_mem hi
      rw [hc] at this
      exact absurd this (List.not_mem_nil c)
    have h1 : quantile xs (1/100) = some c := quantile_const _ hcv hne
    have h2 : quantile xs (99/100) = some c := quantile_const _ hcv hne
    simp only [minmax_clamped, h1, h2]
    rw [List.getD_eq_getElem _ 0 (by simpa), List.getElem_map]
    rw [List.getD_eq_getElem _ none hi] at hsome
    rw [hsome]
    simp [clip]

/-- Witness for C6 at a concrete column. -/
theorem minmax_clamped_safe_witness :
    ((0 : ℚ) ≤ 1/2 ∧ (1/2 : ℚ) ≤ 1) ∧
    (minmax_clamped [some 5, none, some 5]).getD 1 0 = 1/2 ∧
    (minmax_clamped [some 5, none, some 5]).getD 0 0 = 0 := by
  have heval : minmax_clamped [some 5, none, some 5] = [0, 1/2, 0] := by
    norm_num [minmax_clamped, quantile, interpAt, clip, List.insertionSort,
      List.orderedInsert, List.filterMap_cons, List.filterMap_nil,
      show ⌊(1 : ℚ)/100⌋₊ = 0 by rw [Nat.floor_eq_zero]; norm_num,
      show ⌊(99 : ℚ)/100⌋₊ = 0 by rw [Nat.floor_eq_zero]; norm_num]
  refine ⟨?_, ?_, ?_⟩
  · exact (minmax_clamped_safe [some 5, none, some 5]).1 (1/2)
      (by rw [heval]; norm_num)
  · exact (minmax_clamped_safe [some 5, none, some 5]).2.1 1 (by norm_num) rfl
  · exact (minmax_clamped_safe [some 5, none, some 5]).2.2 5
      (by intro x hx; simp only [List.mem_cons, List.not_mem_nil, or_false] at hx;
          rcases hx with rfl | rfl | rfl <;> simp) 0
      (by norm_num) rfl

/-! ## Single-hex scoring (claim C1) -/

theorem minmax_single (t : ℚ) : minmax_clamped [some t] = [0] := by
  simp [minmax_clamped, quantile, interpAt, clip]

theorem validIndices_length_le (coords : List (Option ℚ × Option ℚ)) :
    (validIndices coords).length ≤ coords.length := by
  calc (validIndices coords).length ≤ (List.range coords.length).length :=
        List.length_filter_le _ _
    _ = coords.length := List.length_range _

theorem knn_smooth_of_few (d : ℚ → ℚ → ℚ → ℚ → ℚ)
    (coords : List (Option ℚ × Option ℚ)) (vals : List (Option ℚ))
    (h : (validIndices coords).length < 2) :
    knn_smooth d coords vals = vals := by
  unfold knn_smooth
  rw [if_pos h]

theorem compute_single_eval (d : ℚ → ℚ → ℚ → ℚ → ℚ) (r : MergedRow)
    (t e s p : ℚ) (ht : r.local_temp_c = some t) (he : r.elevation_m = some e)
    (hs : r.sustainability = some s) (hp : r.profitability = some p) :
    compute_hex_scores d [r] = [{
      hex_id := r.hex_id, local_temp_c := some t, elevation_m := some e,
      lat := r.lat, lon := r.lon, region := r.region,
      dist_to_region_m := r.dist_to_region_m, sustainability := some s,
      profitability := some p, temp_norm := 0, temp_cool_score := 1,
      elev_norm := 0,
      sustainability_hex := some (s + 1 * TEMP_WEIGHT + 0 * ELEV_WEIGHT),
      profitability_hex := some p,
      dc_score_hex :=
        some ((6/10) * (s + 1 * TEMP_WEIGHT + 0 * ELEV_WEIGHT) + (4/10) * p),
      dc_score_hex_smooth :=
        some ((6/10) * (s + 1 * TEMP_WEIGHT + 0 * ELEV_WEIGHT) + (4/10) * p) }] := by
  obtain ⟨hid, tc, em, la, lo, rg, dm, su, pr⟩ := r
  simp only [] at ht he hs hp
  subst ht he hs hp
  have hfew : ∀ v : Option ℚ, knn_smooth d [(la, lo)] [v] = [v] := fun v =>
    knn_smooth_of_few d _ _ (lt_of_le_of_lt (validIndices_length_le _) (by norm_num))
  simp [compute_hex_scores, minmax_single, oadd, osmul, hfew,
    show List.range 1 = [0] from rfl, TEMP_WEIGHT, ELEV_WEIGHT]

/-- C1 is false as stated: on the spec's single-hex example population
the normalization does not fall back to `0.5` — a single data point
yields percentile bounds equal to the point, so `temp_norm` and
`elev_norm` are `0`, and `dc_score` is `0.59`, not the
`0.6×(0.5+0.15×0.5+0.05×0.5)+0.4×0.5 = 0.56` the claim predicts. -/
theorem c1_counterexample :
    ((compute_hex_scores (fun _ _ _ _ => 0) [exampleRow]).getD 0 default).temp_norm = 0 ∧
    ¬ ((compute_hex_scores (fun _ _ _ _ => 0) [exampleRow]).getD 0 default).temp_norm = 1/2 ∧
    ((compute_hex_scores (fun _ _ _ _ => 0) [exampleRow]).getD 0 default).dc_score_hex
      = some (59/100) ∧
    ¬ ((compute_hex_scores (fun _ _ _ _ => 0) [exampleRow]).getD 0 default).dc_score_hex
      = some (14/25) := by
  have h := compute_single_eval (fun _ _ _ _ => 0) exampleRow 20 100 (1/2) (1/2)
    rfl rfl rfl rfl
  rw [h]
  norm_num [TEMP_WEIGHT, ELEV_WEIGHT, exampleRow]

/-- C1 (amended): for a population of exactly one hex with non-null
`local_temp_c` and `elevation_m`, the single-point normalization yields
`temp_norm = elev_norm = 0` (not `0.5`), hence `temp_cool_score = 1` and
`dc_score = 0.6×(sustainability + 0.15×temp_cool_score +
0.05×elev_norm) + 0.4×profitability`; smoothing is skipped, so the
smoothed score equals it. -/
theorem c1_single_hex_scores (d : ℚ → ℚ → ℚ → ℚ → ℚ) (r : MergedRow)
    (t e s p : ℚ) (ht : r.local_temp_c = some t) (he : r.elevation_m = some e)
    (hs : r.sustainability = some s) (hp : r.profitability = some p) :
    ∃ out : ScoredRow, compute_hex_scores d [r] = [out] ∧
      out.temp_norm = 0 ∧ out.elev_norm = 0 ∧ out.temp_cool_score = 1 ∧
      out.dc_score_hex = some ((6/10) *
        (s + out.temp_cool_score * TEMP_WEIGHT + out.elev_norm * ELEV_WEIGHT)
        + (4/10) * p) ∧
      out.dc_score_hex_smooth = out.dc_score_hex := by
  refine ⟨_, compute_single_eval d r t e s p ht he hs hp, rfl, rfl, rfl, ?_, rfl⟩
  norm_num

/-- Witness for C1 (amended) on the spec's example population. -/
theorem c1_single_hex_scores_witness :
    ∃ out : ScoredRow,
      compute_hex_scores (fun _ _ _ _ => 0) [exampleRow] = [out] ∧
      out.temp_norm = 0 ∧ out.elev_norm = 0 ∧ out.temp_cool_score = 1 ∧
      out.dc_score_hex = some ((6/10) *
        (1/2 + out.temp_cool_score * TEMP_WEIGHT + out.elev_norm * ELEV_WEIGHT)
        + (4/10) * (1/2)) ∧
      out.dc_score_hex_smooth = out.dc_score_hex :=
  c1_single_hex_scores (fun _ _ _ _ => 0) exampleRow 20 100 (1/2) (1/2)
    rfl rfl rfl rfl

/-! ## Region assignment (claims C5, C8, C2) -/

theorem argminIdx_lt_length : ∀ ds : List ℚ, ds ≠ [] → argminIdx ds < ds.length := by
  intro ds
  induction ds with
  | nil => intro h; exact absurd rfl h
  | cons x tail ih =>
    intro _
    cases tail with
    | nil => simp [argminIdx]
    | cons y rest =>
      simp only [argminIdx]
      split
      · have := ih (List.cons_ne_nil y rest)
        simpa using Nat.succ_lt_succ this
      · simp

theorem argminIdx_le : ∀ ds : List ℚ, ∀ k, k < ds.length →
    ds.getD (argminIdx ds) 0 ≤ ds.getD k 0 := by
  intro ds
  induction ds with
  | nil => intro k hk; simp at hk
  | cons x tail ih =>
    intro k hk
    cases tail with
    | nil =>
      have hk0 : k = 0 := by simpa using hk
      subst hk0
      simp [argminIdx]
    | cons y rest =>
      simp only [argminIdx]
      split
      · rename_i hbr
        rw [List.getD_cons_succ]
        cases k with
        | zero => exact le_of_lt (by simpa using hbr)
        | succ k2 =>
          rw [List.getD_cons_succ]
          exact ih k2 (by simpa using hk)
      · rename_i hbr
        have hx : x ≤ (y :: rest).getD (argminIdx (y :: rest)) 0 := le_of_not_lt hbr
        cases k with
        | zero => simp
        | succ k2 =>
          rw [List.getD_cons_zero, List.getD_cons_succ]
          exact le_trans hx (ih k2 (by simpa using hk))

theorem argminIdx_first : ∀ ds : List ℚ, ∀ k, k < argminIdx ds →
    ds.getD (argminIdx ds) 0 < ds.getD k 0 := by
  intro ds
  induction ds with
  | nil => intro k hk; simp [argminIdx] at hk
  | cons x tail ih =>
    intro k hk
    cases tail with
    | nil => simp [argminIdx] at hk
    | cons y rest =>
      simp only [argminIdx] at hk ⊢
      split at hk
      · rename_i hbr
        rw [if_pos hbr, List.getD_cons_succ]
        cases k with
        | zero => simpa using hbr
        | succ k2 =>
          rw [List.getD_cons_succ]
          exact ih k2 (Nat.lt_of_succ_lt_succ hk)
      · omega

theorem getD_map_eval {α β : Type} [Inhabited α] (f : α → β) (l : List α)
    (i : ℕ) (h : i < l.length) (dflt : β) :
    (l.map f).getD i dflt = f (l.getD i default) := by
  rw [List.getD_eq_getElem _ _ (by simpa), List.getElem_map,
    List.getD_eq_getElem _ _ h]

theorem nearestRegion_spec (d : ℚ → ℚ → ℚ → ℚ → ℚ) (scores : List RegionRow)
    (la lo : ℚ) (hne : scores ≠ []) :
    ∃ k, k < scores.length ∧
      nearestRegion d scores la lo = some ((scores.getD k default).region,
        d la lo (scores.getD k default).lat (scores.getD k default).lon) ∧
      (∀ k2, k2 < scores.length →
        d la lo (scores.getD k default).lat (scores.getD k default).lon ≤
        d la lo (scores.getD k2 default).lat (scores.getD k2 default).lon) ∧
      (∀ k2, k2 < k →
        d la lo (scores.getD k default).lat (scores.getD k default).lon <
        d la lo (scores.getD k2 default).lat (scores.getD k2 default).lon) := by
  obtain ⟨a, as, rfl⟩ := List.exists_cons_of_ne_nil hne
  have hdlen : ((a :: as).map (fun s => d la lo s.lat s.lon)).length =
      (a :: as).length := by simp
  have hlen : argminIdx ((a :: as).map (fun s => d la lo s.lat s.lon)) <
      (a :: as).length := by
    rw [← hdlen]
    exact argminIdx_lt_length _ (by simp)
  refine ⟨argminIdx ((a :: as).map (fun s => d la lo s.lat s.lon)), hlen, ?_, ?_, ?_⟩
  · simp only [nearestRegion]
    rw [getD_map_eval _ _ _ hlen]
  · intro k2 hk2
    have h1 := argminIdx_le ((a :: as).map (fun s => d la lo s.lat s.lon)) k2
      (by rw [hdlen]; exact hk2)
    rwa [getD_map_eval _ _ _ hlen, getD_map_eval _ _ _ hk2] at h1
  · intro k2 hk2
    have h1 := argminIdx_first ((a :: as).map (fun s => d la lo s.lat s.lon)) k2 hk2
    have hk2len : k2 < (a :: as).length := lt_trans hk2 hlen
    rwa [getD_map_eval _ _ _ hlen, getD_map_eval _ _ _ hk2len] at h1

theorem mapExcept_ok_spec {α β : Type} [Inhabited α] [Inhabited β]
    {f : α → Except String β} :
    ∀ {l : List α} {out : List β}, mapExcept f l = Except.ok out →
      out.length = l.length ∧
      ∀ i, i < l.length → f (l.getD i default) = Except.ok (out.getD i default) := by
  intro l
  induction l with
  | nil =>
    intro out h
    simp only [mapExcept] at h
    cases h
    exact ⟨rfl, fun i hi => absurd hi (by simp)⟩
  | cons x xs ih =>
    intro out h
    simp only [mapExcept] at h
    cases hfx : f x with
    | error e => rw [hfx] at h; exact absurd h (by simp)
    | ok y =>
      rw [hfx] at h
      cases hrest : mapExcept f xs with
      | error e => rw [hrest] at h; exact absurd h (by simp)
      | ok ys =>
        rw [hrest] at h
        simp only [Except.ok.injEq] at h
        subst h
        obtain ⟨hlen, hall⟩ := ih hrest
        refine ⟨by simpa using hlen, ?_⟩
        intro i hi
        cases i with
        | zero => simpa using hfx
        | succ i2 =>
          rw [List.getD_cons_succ, List.getD_cons_succ]
          exact hall i2 (by simpa using hi)

/-- C5: a hex row with a missing region and valid coordinates is
assigned the region of the centroid at minimal distance, ties broken by
the first region in input order achieving the minimum, and that minimal
distance is recorded in `dist_to_region_m`.  (Stated for every distance
function `d`, hence for the haversine distance of the script.) -/
theorem c5_nearest_region_assignment (d : ℚ → ℚ → ℚ → ℚ → ℚ)
    (hexes : List HexRow) (scores : List RegionRow) (out : List HexRow)
    (la lo : ℚ) (i : ℕ)
    (hok : assign_region_if_missing d hexes scores = Except.ok out)
    (hi : i < hexes.length)
    (hreg : (hexes.getD i default).region = none)
    (hla : (hexes.getD i default).lat = some la)
    (hlo : (hexes.getD i default).lon = some lo)
    (hne : scores ≠ []) :
    ∃ k, k < scores.length ∧
      (out.getD i default).region = some (scores.getD k default).region ∧
      (out.getD i default).dist_to_region_m =
        some (d la lo (scores.getD k default).lat (scores.getD k default).lon) ∧
      (∀ k2, k2 < scores.length →
        d la lo (scores.getD k default).lat (scores.getD k default).lon ≤
        d la lo (scores.getD k2 default).lat (scores.getD k2 default).lon) ∧
      (∀ k2, k2 < k →
        d la lo (scores.getD k default).lat (scores.getD k default).lon <
        d la lo (scores.getD k2 default).lat (scores.getD k2 default).lon) := by
  unfold assign_region_if_missing at hok
  split at hok
  · rename_i hall
    rw [List.all_eq_true] at hall
    have hmem : hexes.getD i default ∈ hexes := by
      rw [List.getD_eq_getElem _ _ hi]
      exact List.getElem_mem hi
    have := hall _ hmem
    rw [hreg] at this
    exact absurd this (by simp)
  · obtain ⟨hlen, hall⟩ := mapExcept_ok_spec hok
    have hrow := hall i hi
    unfold assignRow at hrow
    rw [hla, hlo] at hrow
    obtain ⟨k, hk, hnr, hmin, hfirst⟩ := nearestRegion_spec d scores la lo hne
    simp only [hnr, Except.ok.injEq] at hrow
    refine ⟨k, hk, ?_, ?_, hmin, hfirst⟩
    · rw [← hrow]
      simp only [hreg, Option.getD_none]
    · rw [← hrow]

theorem assign_c2_eval :
    assign_region_if_missing (fun _ _ _ _ => 0) c2Hexes c2Scores =
      Except.ok c2Out := by
  simp [assign_region_if_missing, c2Hexes, c2Scores, c2Out, mapExcept,
    assignRow, nearestRegion, argminIdx, Except.bind]

/-- Witness for C5 on the two-hex, one-region fixture. -/
theorem c5_nearest_region_assignment_witness :
    ∃ k, k < c2Scores.length ∧
      (c2Out.getD 1 default).region = some (c2Scores.getD k default).region ∧
      (c2Out.getD 1 default).dist_to_region_m =
        some ((fun _ _ _ _ => (0 : ℚ)) 9 9 (c2Scores.getD k default).lat
          (c2Scores.getD k default).lon) ∧
      (∀ k2, k2 < c2Scores.length →
        (fun _ _ _ _ => (0 : ℚ)) 9 9 (c2Scores.getD k default).lat
          (c2Scores.getD k default).lon ≤
        (fun _ _ _ _ => (0 : ℚ)) 9 9 (c2Scores.getD k2 default).lat
          (c2Scores.getD k2 default).lon) ∧
      (∀ k2, k2 < k →
        (fun _ _ _ _ => (0 : ℚ)) 9 9 (c2Scores.getD k default).lat
          (c2Scores.getD k default).lon <
        (fun _ _ _ _ => (0 : ℚ)) 9 9 (c2Scores.getD k2 default).lat
          (c2Scores.getD k2 default).lon) :=
  c5_nearest_region_assignment (fun _ _ _ _ => 0) c2Hexes c2Scores c2Out 9 9 1
    assign_c2_eval (by simp [c2Hexes]) rfl rfl rfl (by simp [c2Scores])

/-- C8: region assignment never overwrites an existing non-null region
tag — a hex whose region is already set keeps it, whatever centroid is
nearest. -/
theorem c8_region_preserved (d : ℚ → ℚ → ℚ → ℚ → ℚ) (hexes : List HexRow)
    (scores : List RegionRow) (out : List HexRow) (i : ℕ) (r : String)
    (hok : assign_region_if_missing d hexes scores = Except.ok out)
    (hi : i < hexes.length) (hr : (hexes.getD i default).region = some r) :
    (out.getD i default).region = some r := by
  unfold assign_region_if_missing at hok
  split at hok
  · cases hok
    exact hr
  · obtain ⟨hlen, hall⟩ := mapExcept_ok_spec hok
    have hrow := hall i hi
    unfold assignRow at hrow
    rcases hla : (hexes.getD i default).lat with _ | la <;>
      rcases hlo : (hexes.getD i default).lon with _ | lo <;>
      rw [hla, hlo] at hrow
    · simp only [Except.ok.injEq] at hrow
      rw [← hrow]
      exact hr
    · simp only [Except.ok.injEq] at hrow
      rw [← hrow]
      exact hr
    · simp only [Except.ok.injEq] at hrow
      rw [← hrow]
      exact hr
    · cases hnr : nearestRegion d scores la lo with
      | none =>
        simp only [hnr, reduceCtorEq] at hrow
      | some pr =>
        obtain ⟨r2, dist⟩ := pr
        simp only [hnr, Except.ok.injEq] at hrow
        rw [← hrow]
        simp only [hr, Option.getD_some]

/-- Witness for C8: the first hex of the fixture keeps its pre-set tag. -/
theorem c8_region_preserved_witness : (c2Out.getD 0 default).region = some "A" :=
  c8_region_preserved (fun _ _ _ _ => 0) c2Hexes c2Scores c2Out 0 "A"
    assign_c2_eval (by simp [c2Hexes]) rfl

theorem assign_c2_eval_dist :
    assign_region_if_missing c4D c2Hexes c2Scores = Except.ok c2OutD := by
  simp only [assign_region_if_missing, c2Hexes, c2Scores, c2OutD, mapExcept,
    assignRow, nearestRegion, argminIdx, c4D]
  norm_num

/-- C2 is false as stated: hex 0 of `c2Hexes` has a pre-existing region
tag and valid coordinates, yet after assignment (which runs because
hex 1 lacks a tag) its `dist_to_region_m` holds the computed distance to
the nearest centroid (162 under the squared-chord stand-in distance),
not null — the loop records the distance for every row with
coordinates, not only for rows whose region was inferred. -/
theorem c2_counterexample :
    assign_region_if_missing c4D c2Hexes c2Scores = Except.ok c2OutD ∧
    (c2Hexes.getD 0 default).region = some "A" ∧
    (c2Hexes.getD 0 default).lat = some 9 ∧
    (c2Hexes.getD 0 default).lon = some 9 ∧
    (c2OutD.getD 0 default).dist_to_region_m = some 162 ∧
    ¬ (c2OutD.getD 0 default).dist_to_region_m = none :=
  ⟨assign_c2_eval_dist, rfl, rfl, rfl, rfl, by simp [c2OutD]⟩

/-- C2 (amended): when the assignment stage runs (at least one hex lacks
a region tag), `dist_to_region_m` is null exactly for the hexes with
missing coordinates — every hex with valid coordinates, its region tag
pre-existing or not, gets a non-null distance, namely the distance to
the nearest region centroid.  When every hex already has a region the
stage is a no-op and no distance is recorded at all. -/
theorem c2_distance_nullness (d : ℚ → ℚ → ℚ → ℚ → ℚ) (hexes : List HexRow)
    (scores : List RegionRow) (out : List HexRow)
    (hok : assign_region_if_missing d hexes scores = Except.ok out) :
    ((∃ h0 ∈ hexes, h0.region = none) →
      ∀ i, i < hexes.length →
        ((out.getD i default).dist_to_region_m = none ↔
          ((hexes.getD i default).lat = none ∨
           (hexes.getD i default).lon = none))) ∧
    ((∃ h0 ∈ hexes, h0.region = none) →
      ∀ i la lo, i < hexes.length →
        (hexes.getD i default).lat = some la →
        (hexes.getD i default).lon = some lo →
        ∃ k, k < scores.length ∧
          (out.getD i default).dist_to_region_m =
            some (d la lo (scores.getD k default).lat
              (scores.getD k default).lon) ∧
          (∀ k2, k2 < scores.length →
            d la lo (scores.getD k default).lat (scores.getD k default).lon ≤
            d la lo (scores.getD k2 default).lat
              (scores.getD k2 default).lon)) ∧
    ((∀ h0 ∈ hexes, h0.region.isSome) → out = hexes) := by
  unfold assign_region_if_missing at hok
  split at hok
  · rename_i hall
    rw [List.all_eq_true] at hall
    cases hok
    have hvac : ¬ ∃ h0 ∈ hexes, h0.region = none := by
      intro hex
      obtain ⟨h0, hmem, hnone⟩ := hex
      have := hall h0 hmem
      rw [hnone] at this
      exact absurd this (by simp)
    exact ⟨fun hex => absurd hex hvac, fun hex => absurd hex hvac, fun _ => rfl⟩
  · rename_i hnall
    refine ⟨?_, ?_, ?_⟩
    · intro _ i hi
      obtain ⟨hlen, hall⟩ := mapExcept_ok_spec hok
      have hrow := hall i hi
      unfold assignRow at hrow
      rcases hla : (hexes.getD i default).lat with _ | la <;>
        rcases hlo : (hexes.getD i default).lon with _ | lo <;>
        rw [hla, hlo] at hrow
      · simp only [Except.ok.injEq] at hrow
        rw [← hrow]
        simp
      · simp only [Except.ok.injEq] at hrow
        rw [← hrow]
        simp
      · simp only [Except.ok.injEq] at hrow
        rw [← hrow]
        simp
      · cases hnr : nearestRegion d scores la lo with
        | none =>
          simp only [hnr, reduceCtorEq] at hrow
        | some pr =>
          obtain ⟨r2, dist⟩ := pr
          simp only [hnr, Except.ok.injEq] at hrow
          rw [← hrow]
          simp
    · intro _ i la lo hi hla hlo
      obtain ⟨hlen, hall⟩ := mapExcept_ok_spec hok
      have hrow := hall i hi
      unfold assignRow at hrow
      rw [hla, hlo] at hrow
      cases hnr : nearestRegion d scores la lo with
      | none =>
        simp only [hnr, reduceCtorEq] at hrow
      | some pr =>
        have hne : scores ≠ [] := by
          intro hc
          rw [hc] at hnr
          simp only [nearestRegion] at hnr
          exact Option.noConfusion hnr
        obtain ⟨k, hk, hspec, hmin, _⟩ := nearestRegion_spec d scores la lo hne
        simp only [hspec, Except.ok.injEq] at hrow
        refine ⟨k, hk, ?_, hmin⟩
        rw [← hrow]
    · intro hall
      exact absurd (List.all_eq_true.2 (fun h0 hmem => hall h0 hmem)) hnall

/-- Witness for C2 (amended) on the fixture under `c4D`: both hexes
have valid coordinates, so both distances are non-null, and the
pre-tagged hex 0 holds the minimal centroid distance. -/
theorem c2_distance_nullness_witness :
    ((c2OutD.getD 0 default).dist_to_region_m = none ↔
      ((c2Hexes.getD 0 default).lat = none ∨
       (c2Hexes.getD 0 default).lon = none)) ∧
    ((c2OutD.getD 1 default).dist_to_region_m = none ↔
      ((c2Hexes.getD 1 default).lat = none ∨
       (c2Hexes.getD 1 default).lon = none)) ∧
    (∃ k, k < c2Scores.length ∧
      (c2OutD.getD 0 default).dist_to_region_m =
        some (c4D 9 9 (c2Scores.getD k default).lat
          (c2Scores.getD k default).lon) ∧
      (∀ k2, k2 < c2Scores.length →
        c4D 9 9 (c2Scores.getD k default).lat (c2Scores.getD k default).lon ≤
        c4D 9 9 (c2Scores.getD k2 default).lat
          (c2Scores.getD k2 default).lon)) := by
  have h := c2_distance_nullness c4D c2Hexes c2Scores c2OutD assign_c2_eval_dist
  have hex : ∃ h0 ∈ c2Hexes, h0.region = none := by
    refine ⟨c2Hexes.getD 1 default, ?_, rfl⟩
    simp [c2Hexes]
  exact ⟨h.1 hex 0 (by simp [c2Hexes]), h.1 hex 1 (by simp [c2Hexes]),
    h.2.1 hex 0 9 9 (by simp [c2Hexes]) rfl rfl⟩

/-! ## The writer and the pipeline (claims C3, C9, C10) -/

theorem getD_set_ne {α : Type} [Inhabited α] (l : List α) (p2 p : ℕ) (x : α)
    (h : p2 ≠ p) : (l.set p2 x).getD p default = l.getD p default := by
  by_cases hp : p < l.length
  · rw [List.getD_eq_getElem _ _ (by simpa), List.getD_eq_getElem _ _ hp]
    exact List.getElem_set_ne h (by simpa)
  · have hlen : (l.set p2 x).length = l.length := by simp
    rw [List.getD_eq_getElem?_getD,
      List.getElem?_eq_none_iff.2 (by rw [hlen]; omega),
      List.getD_eq_getElem?_getD, List.getElem?_eq_none_iff.2 (by omega)]

theorem lastMatch_mem {features : List Feature} {hid : ℤ} {p : ℕ}
    (h : lastMatch features hid = some p) :
    p ∈ (List.range features.length).filter (fun p2 =>
      decide (featHexId (features.getD p2 default) = some hid)) := by
  unfold lastMatch at h
  exact List.mem_of_mem_getLast? (by rw [h]; rfl)

theorem lastMatch_lt {features : List Feature} {hid : ℤ} {p : ℕ}
    (h : lastMatch features hid = some p) : p < features.length := by
  have := (List.mem_filter.1 (lastMatch_mem h)).1
  simpa using this

theorem lastMatch_hex {features : List Feature} {hid : ℤ} {p : ℕ}
    (h : lastMatch features hid = some p) :
    featHexId (features.getD p default) = some hid := by
  have := (List.mem_filter.1 (lastMatch_mem h)).2
  simpa using this

theorem updateStep_none {features : List Feature} {row : ScoredRow}
    (fs : List Feature) (h : lastMatch features row.hex_id = none) :
    updateStep features fs row = fs := by
  unfold updateStep
  rw [h]

theorem updateStep_some {features : List Feature} {row : ScoredRow} {p : ℕ}
    (fs : List Feature) (h : lastMatch features row.hex_id = some p) :
    updateStep features fs row = fs.set p (applyProps (fs.getD p default) row) := by
  unfold updateStep
  rw [h]

theorem lookupProp_setProp_ne (ps : List (String × JVal)) (k k2 : String)
    (v : JVal) (h : k2 ≠ k) : lookupProp k (setProp ps k2 v) = lookupProp k ps := by
  induction ps with
  | nil => simp [setProp, lookupProp, h]
  | cons kv rest ih =>
    obtain ⟨k3, v3⟩ := kv
    by_cases hk3 : k3 = k2
    · subst hk3
      simp [setProp, lookupProp, h]
    · simp only [setProp, if_neg hk3, lookupProp]
      by_cases hk : k3 = k
      · simp [hk]
      · simp [hk, ih]

theorem lookupProp_foldl_setProp (kvs : List (String × JVal)) :
    ∀ (ps : List (String × JVal)) (k : String), (∀ kv ∈ kvs, kv.1 ≠ k) →
      lookupProp k (kvs.foldl (fun ps2 kv => setProp ps2 kv.1 kv.2) ps) =
        lookupProp k ps := by
  induction kvs with
  | nil => intro ps k _; rfl
  | cons kv rest ih =>
    intro ps k hk
    simp only [List.foldl_cons]
    rw [ih _ k (fun kv2 hkv2 => hk kv2 (List.mem_cons_of_mem kv hkv2)),
      lookupProp_setProp_ne _ _ _ _ (hk kv (List.mem_cons_self kv rest))]

theorem rowProps_keys (row : ScoredRow) : (rowProps row).map Prod.fst = WRITTEN := by
  simp [rowProps, WRITTEN]

theorem applyProps_preserves (f : Feature) (row : ScoredRow) (k : String)
    (hk : ¬ k ∈ WRITTEN) :
    lookupProp k (applyProps f row).props = lookupProp k f.props ∧
    (applyProps f row).geom = f.geom := by
  refine ⟨?_, rfl⟩
  apply lookupProp_foldl_setProp
  intro kv hkv hc
  apply hk
  rw [← rowProps_keys row, ← hc]
  exact List.mem_map_of_mem Prod.fst hkv

theorem update_foldl_length (features : List Feature) :
    ∀ (scored : List ScoredRow) (fs : List Feature),
      (scored.foldl (updateStep features) fs).length = fs.length := by
  intro scored
  induction scored with
  | nil => intro fs; rfl
  | cons r rest ih =>
    intro fs
    rw [List.foldl_cons, ih]
    cases hlm : lastMatch features r.hex_id with
    | none => rw [updateStep_none fs hlm]
    | some p => rw [updateStep_some fs hlm, List.length_set]

theorem update_features_length (features : List Feature)
    (scored : List ScoredRow) :
    (update_features features scored).length = features.length :=
  update_foldl_length features scored features

theorem update_foldl_untouched (features : List Feature) :
    ∀ (scored : List ScoredRow) (fs : List Feature) (p : ℕ),
      (∀ row ∈ scored, lastMatch features row.hex_id ≠ some p) →
      (scored.foldl (updateStep features) fs).getD p default =
        fs.getD p default := by
  intro scored
  induction scored with
  | nil => intro fs p _; rfl
  | cons r rest ih =>
    intro fs p hno
    rw [List.foldl_cons,
      ih _ p (fun row hrow => hno row (List.mem_cons_of_mem r hrow))]
    cases hlm : lastMatch features r.hex_id with
    | none => rw [updateStep_none fs hlm]
    | some p2 =>
      rw [updateStep_some fs hlm]
      have hne : p2 ≠ p := by
        intro hc
        exact hno r (List.mem_cons_self r rest) (by rw [hlm, hc])
      exact getD_set_ne fs p2 p _ hne

theorem update_foldl_keys (features : List Feature) :
    ∀ (scored : List ScoredRow) (fs : List Feature) (p : ℕ) (k : String),
      ¬ k ∈ WRITTEN →
      lookupProp k ((scored.foldl (updateStep features) fs).getD
          p default).props = lookupProp k (fs.getD p default).props ∧
      ((scored.foldl (updateStep features) fs).getD p default).geom =
        (fs.getD p default).geom := by
  intro scored
  induction scored with
  | nil => intro fs p k _; exact ⟨rfl, rfl⟩
  | cons r rest ih =>
    intro fs p k hk
    rw [List.foldl_cons]
    cases hlm : lastMatch features r.hex_id with
    | none =>
      rw [updateStep_none fs hlm]
      exact ih fs p k hk
    | some p2 =>
      rw [updateStep_some fs hlm]
      obtain ⟨ih1, ih2⟩ :=
        ih (fs.set p2 (applyProps (fs.getD p2 default) r)) p k hk
      rw [ih1, ih2]
      by_cases hpp : p2 = p
      · subst hpp
        by_cases hplen : p2 < fs.length
        · have hset : (fs.set p2 (applyProps (fs.getD p2 default) r)).getD p2
              default = applyProps (fs.getD p2 default) r := by
            rw [List.getD_eq_getElem _ _ (by simpa)]
            exact List.getElem_set_self ..
          rw [hset]
          exact applyProps_preserves _ r k hk
        · rw [List.set_eq_of_length_le (by omega)]
          exact ⟨rfl, rfl⟩
      · rw [getD_set_ne fs p2 p _ hpp]
        exact ⟨rfl, rfl⟩

/-- C9: the writer updates features in place — every property key not
among the fourteen written fields keeps its value, the geometry payload
is untouched, features whose `hex_id` matches no scored row are left
entirely unchanged, and scored rows without a matching feature
contribute nothing (the feature list keeps its length). -/
theorem c9_update_not_replace (features : List Feature)
    (scored : List ScoredRow) :
    (update_features features scored).length = features.length ∧
    (∀ p, (∀ row ∈ scored,
        featHexId (features.getD p default) ≠ some row.hex_id) →
      (update_features features scored).getD p default =
        features.getD p default) ∧
    (∀ p k, ¬ k ∈ WRITTEN →
      lookupProp k ((update_features features scored).getD p default).props =
        lookupProp k (features.getD p default).props ∧
      ((update_features features scored).getD p default).geom =
        (features.getD p default).geom) := by
  refine ⟨update_features_length features scored, ?_, ?_⟩
  · intro p hno
    apply update_foldl_untouched
    intro row hrow hc
    exact hno row hrow (lastMatch_hex hc)
  · intro p k hk
    exact update_foldl_keys features scored features p k hk

/-- Witness for C9 on the two-feature fixture: the unmatched feature is
unchanged and the matched feature keeps its extra key and geometry. -/
theorem c9_update_not_replace_witness :
    (update_features c9Features [c9Row]).length = c9Features.length ∧
    (update_features c9Features [c9Row]).getD 1 default =
      c9Features.getD 1 default ∧
    lookupProp "extra" ((update_features c9Features [c9Row]).getD 0
      default).props = lookupProp "extra" (c9Features.getD 0 default).props ∧
    ((update_features c9Features [c9Row]).getD 0 default).geom =
      (c9Features.getD 0 default).geom := by
  obtain ⟨h1, h2, h3⟩ := c9_update_not_replace c9Features [c9Row]
  refine ⟨h1, h2 1 ?_, (h3 0 "extra" (by simp [WRITTEN])).1,
    (h3 0 "extra" (by simp [WRITTEN])).2⟩
  intro row hrow
  simp only [List.mem_singleton] at hrow
  subst hrow
  simp [c9Features, c9Row, featHexId, lookupProp]

theorem exBind_ok {α β : Type} (a : α) (f : α → Except String β) :
    exBind (Except.ok a) f = f a := rfl

theorem exBind_error {α β : Type} (e : String) (f : α → Except String β) :
    exBind (Except.error e) f = Except.error e := rfl

theorem run_pipeline_ok_iff (d : ℚ → ℚ → ℚ → ℚ → ℚ) (scores : List RegionRow)
    (clim : List ClimRow) (features : List Feature) (out : List Feature)
    (hok : run_pipeline d scores clim features = Except.ok out) :
    ∃ hexes hexes2, load_base_data clim features = Except.ok hexes ∧
      assign_region_if_missing d hexes scores = Except.ok hexes2 ∧
      out = update_features features
        (compute_hex_scores d (merge_scores hexes2 scores)) := by
  unfold run_pipeline at hok
  cases hload : load_base_data clim features with
  | error e =>
    rw [hload, exBind_error] at hok
    exact absurd hok (by simp)
  | ok hexes =>
    rw [hload] at hok
    simp only [exBind_ok] at hok
    cases hassign : assign_region_if_missing d hexes scores with
    | error e =>
      rw [hassign, exBind_error] at hok
      exact absurd hok (by simp)
    | ok hexes2 =>
      rw [hassign] at hok
      simp only [exBind_ok, Except.ok.injEq] at hok
      exact ⟨hexes, hexes2, rfl, hassign, hok.symm⟩

/-- C3 (amended): the output `FeatureCollection` always has exactly as
many features as the input geometry collection — features matching no
scored hex pass through, so the count does not shrink to the number of
hex identifiers common to both inputs. -/
theorem c3_output_feature_count (d : ℚ → ℚ → ℚ → ℚ → ℚ)
    (scores : List RegionRow) (clim : List ClimRow) (features : List Feature)
    (out : List Feature)
    (hok : run_pipeline d scores clim features = Except.ok out) :
    out.length = features.length := by
  obtain ⟨hexes, hexes2, _, _, hout⟩ :=
    run_pipeline_ok_iff d scores clim features out hok
  rw [hout]
  exact update_features_length _ _

theorem c3_run_eval :
    run_pipeline (fun _ _ _ _ => 0) c2Scores [] c3Features =
      Except.ok c3Features := rfl

/-- C3 is false as stated: with an empty climate table (no hex appears
in both inputs, so the claim predicts zero output features) the pipeline
still outputs the full one-feature geometry collection unchanged. -/
theorem c3_counterexample :
    run_pipeline (fun _ _ _ _ => 0) c2Scores [] c3Features =
      Except.ok c3Features ∧
    c3Features.length = 1 ∧ (1 : ℕ) ≠ 0 :=
  ⟨c3_run_eval, rfl, by norm_num⟩

/-- Witness for C3 (amended) on the same fixture. -/
theorem c3_output_feature_count_witness : c3Features.length = c3Features.length :=
  c3_output_feature_count (fun _ _ _ _ => 0) c2Scores [] c3Features c3Features
    c3_run_eval

/-- C10: if no feature carries both a usable `hex_id` and a usable
`region` (or, likewise, no feature carries `hex_id`, `lat` and `lon`),
the extracted table is an empty, column-less frame, the loader's merge
on `hex_id` raises an uncaught `KeyError`, and the pipeline terminates
before scoring with no output produced. -/
theorem c10_empty_extraction_errors (d : ℚ → ℚ → ℚ → ℚ → ℚ)
    (scores : List RegionRow) (clim : List ClimRow) (features : List Feature)
    (h : (∀ f ∈ features, regionRowOf f = none) ∨
      (∀ f ∈ features, latLonRow f = none)) :
    ∃ e, run_pipeline d scores clim features = Except.error e := by
  have hload : ∃ e, load_base_data clim features = Except.error e := by
    unfold load_base_data
    by_cases hll : (features.filterMap latLonRow).isEmpty = true
    · exact ⟨_, by rw [if_pos hll]⟩
    · rcases h with h | h
      · have hreg : (features.filterMap regionRowOf).isEmpty = true := by
          rw [List.isEmpty_iff, List.filterMap_eq_nil_iff]
          exact h
        exact ⟨_, by rw [if_neg hll, if_pos hreg]⟩
      · exfalso
        apply hll
        rw [List.isEmpty_iff, List.filterMap_eq_nil_iff]
        exact h
  obtain ⟨e, he⟩ := hload
  refine ⟨e, ?_⟩
  unfold run_pipeline
  rw [he, exBind_error]

/-- Witness for C10: a feature with coordinates but no region property
makes the whole run fail. -/
theorem c10_empty_extraction_errors_witness :
    ∃ e, run_pipeline (fun _ _ _ _ => 0) c2Scores [] c10Features =
      Except.error e :=
  c10_empty_extraction_errors (fun _ _ _ _ => 0) c2Scores [] c10Features
    (Or.inl (by
      intro f hf
      simp only [c10Features, List.mem_singleton] at hf
      subst hf
      simp [regionRowOf, featStr, lookupProp]))

/-! ## k-nearest-neighbor smoothing (claims C4, C7) -/

instance : IsTotal (WithTop ℚ × ℕ) pairLe := by
  constructor
  intro p q
  rcases lt_trichotomy p.1 q.1 with h | h | h
  · exact Or.inl (Or.inl h)
  · rcases Nat.le_total p.2 q.2 with h2 | h2
    · exact Or.inl (Or.inr ⟨h, h2⟩)
    · exact Or.inr (Or.inr ⟨h.symm, h2⟩)
  · exact Or.inr (Or.inl h)

instance : IsTrans (WithTop ℚ × ℕ) pairLe := by
  constructor
  intro p q r hpq hqr
  rcases hpq with h1 | ⟨h1, h1b⟩ <;> rcases hqr with h2 | ⟨h2, h2b⟩
  · exact Or.inl (lt_trans h1 h2)
  · exact Or.inl (h2 ▸ h1)
  · exact Or.inl (h1 ▸ h2)
  · exact Or.inr ⟨h1.trans h2, le_trans h1b h2b⟩

theorem mem_validIndices (coords : List (Option ℚ × Option ℚ)) (i : ℕ) :
    i ∈ validIndices coords ↔ i < coords.length ∧
      ((coords.getD i (none, none)).1.isSome &&
       (coords.getD i (none, none)).2.isSome) = true := by
  unfold validIndices
  rw [List.mem_filter, List.mem_range]

theorem validIndices_nodup (coords : List (Option ℚ × Option ℚ)) :
    (validIndices coords).Nodup :=
  (List.nodup_range _).filter _

theorem validIndices_getD_mem (coords : List (Option ℚ × Option ℚ)) (j : ℕ)
    (hj : j < (validIndices coords).length) :
    (validIndices coords).getD j 0 ∈ validIndices coords := by
  rw [List.getD_eq_getElem _ _ hj]
  exact List.getElem_mem hj

theorem knnPairs_length (d : ℚ → ℚ → ℚ → ℚ → ℚ) (cv : List (ℚ × ℚ)) (j : ℕ) :
    (knnPairs d cv j).length = cv.length := by
  simp [knnPairs]

theorem knnPairs_snd (d : ℚ → ℚ → ℚ → ℚ → ℚ) (cv : List (ℚ × ℚ)) (j : ℕ) :
    (knnPairs d cv j).map Prod.snd = List.range cv.length := by
  simp only [knnPairs, List.map_map]
  exact List.map_id _

theorem knnPairs_nodup (d : ℚ → ℚ → ℚ → ℚ → ℚ) (cv : List (ℚ × ℚ)) (j : ℕ) :
    (knnPairs d cv j).Nodup := by
  apply List.Nodup.of_map Prod.snd
  rw [knnPairs_snd]
  exact List.nodup_range _

theorem mem_knnPairs {d : ℚ → ℚ → ℚ → ℚ → ℚ} {cv : List (ℚ × ℚ)} {j : ℕ}
    {x : WithTop ℚ × ℕ} (hx : x ∈ knnPairs d cv j) :
    x.2 < cv.length ∧ x = (distRow d cv j x.2, x.2) := by
  simp only [knnPairs, List.mem_map, List.mem_range] at hx
  obtain ⟨j2, hj2, hjx⟩ := hx
  subst hjx
  exact ⟨hj2, rfl⟩

theorem knnPairs_self_mem (d : ℚ → ℚ → ℚ → ℚ → ℚ) (cv : List (ℚ × ℚ))
    (j : ℕ) (hj : j < cv.length) : (⊤, j) ∈ knnPairs d cv j := by
  simp only [knnPairs, List.mem_map, List.mem_range]
  exact ⟨j, hj, by simp [distRow]⟩

theorem sortedPairs_perm (d : ℚ → ℚ → ℚ → ℚ → ℚ) (cv : List (ℚ × ℚ)) (j : ℕ) :
    List.Perm (List.insertionSort pairLe (knnPairs d cv j)) (knnPairs d cv j) :=
  List.perm_insertionSort pairLe (knnPairs d cv j)

theorem sortedPairs_length (d : ℚ → ℚ → ℚ → ℚ → ℚ) (cv : List (ℚ × ℚ)) (j : ℕ) :
    (List.insertionSort pairLe (knnPairs d cv j)).length = cv.length := by
  rw [(sortedPairs_perm d cv j).length_eq, knnPairs_length]

theorem knnSelect_length (d : ℚ → ℚ → ℚ → ℚ → ℚ) (cv : List (ℚ × ℚ))
    (keff j : ℕ) (hk : keff ≤ cv.length) :
    (knnSelect d cv keff j).length = keff := by
  simp only [knnSelect, List.length_map, List.length_take, sortedPairs_length]
  omega

theorem mem_knnSelect_pair {d : ℚ → ℚ → ℚ → ℚ → ℚ} {cv : List (ℚ × ℚ)}
    {keff j q : ℕ} (hq : q ∈ knnSelect d cv keff j) :
    (distRow d cv j q, q) ∈
      (List.insertionSort pairLe (knnPairs d cv j)).take keff ∧ q < cv.length := by
  simp only [knnSelect, List.mem_map] at hq
  obtain ⟨pr, hpr, hsnd⟩ := hq
  have hpairs : pr ∈ knnPairs d cv j :=
    (sortedPairs_perm d cv j).mem_iff.1 (List.mem_of_mem_take hpr)
  obtain ⟨hlt, heq⟩ := mem_knnPairs hpairs
  rw [hsnd] at hlt heq
  rw [heq] at hpr
  exact ⟨hpr, hlt⟩

theorem mem_knnSelect_lt {d : ℚ → ℚ → ℚ → ℚ → ℚ} {cv : List (ℚ × ℚ)}
    {keff j q : ℕ} (hq : q ∈ knnSelect d cv keff j) : q < cv.length :=
  (mem_knnSelect_pair hq).2

theorem knnSelect_nodup (d : ℚ → ℚ → ℚ → ℚ → ℚ) (cv : List (ℚ × ℚ))
    (keff j : ℕ) : (knnSelect d cv keff j).Nodup := by
  have hsub : List.Sublist
      (((List.insertionSort pairLe (knnPairs d cv j)).take keff).map Prod.snd)
      ((List.insertionSort pairLe (knnPairs d cv j)).map Prod.snd) :=
    (List.take_sublist _ _).map Prod.snd
  have hnodup : ((List.insertionSort pairLe (knnPairs d cv j)).map Prod.snd).Nodup := by
    have hperm := (sortedPairs_perm d cv j).map Prod.snd
    rw [hperm.nodup_iff, knnPairs_snd]
    exact List.nodup_range _
  exact hnodup.sublist hsub

theorem pairLe_of_take_drop {d : ℚ → ℚ → ℚ → ℚ → ℚ} {cv : List (ℚ × ℚ)}
    {j keff : ℕ} {p q : WithTop ℚ × ℕ}
    (hp : p ∈ (List.insertionSort pairLe (knnPairs d cv j)).take keff)
    (hq : q ∈ (List.insertionSort pairLe (knnPairs d cv j)).drop keff) :
    pairLe p q := by
  have hsorted : List.Sorted pairLe (List.insertionSort pairLe (knnPairs d cv j)) :=
    List.sorted_insertionSort pairLe (knnPairs d cv j)
  rw [← List.take_append_drop keff (List.insertionSort pairLe (knnPairs d cv j)),
    List.Sorted, List.pairwise_append] at hsorted
  exact hsorted.2.2 p hp q hq

theorem knnSelect_self_not_mem (d : ℚ → ℚ → ℚ → ℚ → ℚ) (cv : List (ℚ × ℚ))
    (keff j : ℕ) (hj : j < cv.length) (hk : keff ≤ cv.length - 1) :
    ¬ j ∈ knnSelect d cv keff j := by
  intro hmem
  obtain ⟨hpr, _⟩ := mem_knnSelect_pair hmem
  have hself : distRow d cv j j = ⊤ := by simp [distRow]
  rw [hself] at hpr
  have hdlen : ((List.insertionSort pairLe (knnPairs d cv j)).drop keff).length =
      cv.length - keff := by
    rw [List.length_drop, sortedPairs_length]
  have hdpos : 0 < ((List.insertionSort pairLe (knnPairs d cv j)).drop keff).length := by
    rw [hdlen]
    omega
  obtain ⟨y, hy⟩ := List.exists_mem_of_length_pos hdpos
  have hley : pairLe (⊤, j) y := pairLe_of_take_drop hpr hy
  have hytop : y.1 = ⊤ := by
    rcases hley with h | ⟨h, _⟩
    · exact absurd h (not_top_lt)
    · exact h.symm
  have hymem : y ∈ knnPairs d cv j :=
    (sortedPairs_perm d cv j).mem_iff.1 (List.mem_of_mem_drop hy)
  obtain ⟨hylt, hyeq⟩ := mem_knnPairs hymem
  have hyj : y.2 = j := by
    by_contra hne
    have : distRow d cv j y.2 = ((d (cv.getD j (0, 0)).1 (cv.getD j (0, 0)).2
        (cv.getD y.2 (0, 0)).1 (cv.getD y.2 (0, 0)).2 : ℚ) : WithTop ℚ) := by
      simp [distRow, Ne.symm hne]
    rw [hyeq] at hytop
    simp only [this] at hytop
    exact WithTop.coe_ne_top hytop
  have hyval : y = ((⊤ : WithTop ℚ), j) := by
    rw [hyeq, hyj]
    simp [distRow]
  have hnodup : (List.insertionSort pairLe (knnPairs d cv j)).Nodup :=
    (sortedPairs_perm d cv j).nodup_iff.2 (knnPairs_nodup d cv j)
  rw [← List.take_append_drop keff (List.insertionSort pairLe (knnPairs d cv j))]
    at hnodup
  have hdisj := List.disjoint_of_nodup_append hnodup
  exact hdisj hpr (hyval ▸ hy)

theorem knnSelect_nearest {d : ℚ → ℚ → ℚ → ℚ → ℚ} {cv : List (ℚ × ℚ)}
    {keff j q q2 : ℕ} (hq : q ∈ knnSelect d cv keff j) (hq2 : q2 < cv.length)
    (hq2n : ¬ q2 ∈ knnSelect d cv keff j) :
    distRow d cv j q ≤ distRow d cv j q2 := by
  obtain ⟨hpr, _⟩ := mem_knnSelect_pair hq
  have hmem2 : (distRow d cv j q2, q2) ∈ knnPairs d cv j := by
    simp only [knnPairs, List.mem_map, List.mem_range]
    exact ⟨q2, hq2, rfl⟩
  have hsorted2 : (distRow d cv j q2, q2) ∈
      List.insertionSort pairLe (knnPairs d cv j) :=
    (sortedPairs_perm d cv j).mem_iff.2 hmem2
  rw [← List.take_append_drop keff (List.insertionSort pairLe (knnPairs d cv j)),
    List.mem_append] at hsorted2
  rcases hsorted2 with hin | hin
  · exfalso
    apply hq2n
    simp only [knnSelect, List.mem_map]
    exact ⟨(distRow d cv j q2, q2), hin, rfl⟩
  · have := pairLe_of_take_drop hpr hin
    rcases this with h | ⟨h, _⟩
    · exact le_of_lt h
    · exact le_of_eq h

theorem kEff_eq {m : ℕ} (hm : 2 ≤ m) : kEff m = min SMOOTH_K (m - 1) := by
  unfold kEff SMOOTH_K
  omega

theorem kEff_le {m : ℕ} (hm : 2 ≤ m) : kEff m ≤ m - 1 := by
  unfold kEff SMOOTH_K
  omega

theorem knnNeighbors_mem_valid (d : ℚ → ℚ → ℚ → ℚ → ℚ)
    (coords : List (Option ℚ × Option ℚ)) (i x : ℕ)
    (hx : x ∈ knnNeighbors d coords i) : x ∈ validIndices coords := by
  simp only [knnNeighbors, List.mem_map] at hx
  obtain ⟨q, hq, rfl⟩ := hx
  have hqlt : q < (validIndices coords).length := by
    have := mem_knnSelect_lt hq
    simpa using this
  exact validIndices_getD_mem coords q hqlt

theorem distRow_coe (d : ℚ → ℚ → ℚ → ℚ → ℚ) (cv : List (ℚ × ℚ)) (j q : ℕ)
    (hne : j ≠ q) :
    distRow d cv j q = ((d (cv.getD j (0, 0)).1 (cv.getD j (0, 0)).2
      (cv.getD q (0, 0)).1 (cv.getD q (0, 0)).2 : ℚ) : WithTop ℚ) := by
  unfold distRow
  rw [if_neg hne]

/-- C4: for every hex with valid coordinates, when at least two hexes
are valid, the smoothed value at that hex is
`0.25 × own + 0.75 × mean(neighbors)` (in NaN-propagating float
arithmetic) over a neighbor set of exactly `min(20, validCount − 1)`
distinct valid hexes that never includes the hex itself, and such that
no valid hex outside the set is strictly closer than a chosen neighbor
under the pairwise distance function.  (Stated for every distance
function `d`, hence for the script's haversine.) -/
theorem c4_knn_blend (d : ℚ → ℚ → ℚ → ℚ → ℚ)
    (coords : List (Option ℚ × Option ℚ)) (vals : List (Option ℚ)) (i : ℕ)
    (hm : 2 ≤ (validIndices coords).length) (hi : i < coords.length)
    (hv : ((coords.getD i (none, none)).1.isSome &&
      (coords.getD i (none, none)).2.isSome) = true) :
    (knnNeighbors d coords i).length =
      min SMOOTH_K ((validIndices coords).length - 1) ∧
    ¬ i ∈ knnNeighbors d coords i ∧
    (knnNeighbors d coords i).Nodup ∧
    (∀ x ∈ knnNeighbors d coords i, x ∈ validIndices coords) ∧
    (∀ x ∈ knnNeighbors d coords i, ∀ y ∈ validIndices coords,
      ¬ y ∈ knnNeighbors d coords i → y ≠ i →
      d (coordAt coords i).1 (coordAt coords i).2
        (coordAt coords x).1 (coordAt coords x).2 ≤
      d (coordAt coords i).1 (coordAt coords i).2
        (coordAt coords y).1 (coordAt coords y).2) ∧
    (knn_smooth d coords vals).getD i none =
      oblend (vals.getD i none)
        (omean ((knnNeighbors d coords i).map (fun x => vals.getD x none))) := by
  have hvi : i ∈ validIndices coords := (mem_validIndices coords i).2 ⟨hi, hv⟩
  have hj : (validIndices coords).indexOf i < (validIndices coords).length :=
    List.indexOf_lt_length.2 hvi
  have hgetj : (validIndices coords).getD ((validIndices coords).indexOf i) 0 = i := by
    rw [List.getD_eq_getElem _ _ hj]
    exact List.getElem_indexOf hj
  have hcvlen : ((validIndices coords).map (coordAt coords)).length =
      (validIndices coords).length := by simp
  have hnb : knnNeighbors d coords i =
      (knnSelect d ((validIndices coords).map (coordAt coords))
        (kEff (validIndices coords).length)
        ((validIndices coords).indexOf i)).map
        (fun j2 => (validIndices coords).getD j2 0) := rfl
  have hkle : kEff (validIndices coords).length ≤
      ((validIndices coords).map (coordAt coords)).length := by
    rw [hcvlen]
    have := kEff_le hm
    omega
  have hselfnot := knnSelect_self_not_mem d
    ((validIndices coords).map (coordAt coords))
    (kEff (validIndices coords).length) ((validIndices coords).indexOf i)
    (by rw [hcvlen]; exact hj) (by rw [hcvlen]; exact kEff_le hm)
  have hcvq : ∀ q, q < (validIndices coords).length →
      ((validIndices coords).map (coordAt coords)).getD q (0, 0) =
        coordAt coords ((validIndices coords).getD q 0) := by
    intro q hq
    exact getD_map_eval (coordAt coords) (validIndices coords) q hq (0, 0)
  have hinj : ∀ q1 q2, q1 < (validIndices coords).length →
      q2 < (validIndices coords).length →
      (validIndices coords).getD q1 0 = (validIndices coords).getD q2 0 →
      q1 = q2 := by
    intro q1 q2 hq1 hq2 heq
    rw [List.getD_eq_getElem _ _ hq1, List.getD_eq_getElem _ _ hq2] at heq
    exact (List.Nodup.getElem_inj_iff (validIndices_nodup coords)).1 heq
  refine ⟨?_, ?_, ?_, fun x hx => knnNeighbors_mem_valid d coords i x hx, ?_, ?_⟩
  · rw [hnb, List.length_map, knnSelect_length d _ _ _ hkle, kEff_eq hm]
  · intro hmem
    rw [hnb, List.mem_map] at hmem
    obtain ⟨q, hq, heq⟩ := hmem
    have hqlt : q < (validIndices coords).length := by
      have := mem_knnSelect_lt hq
      rwa [hcvlen] at this
    have : q = (validIndices coords).indexOf i :=
      hinj q _ hqlt hj (by rw [heq, hgetj])
    rw [this] at hq
    exact hselfnot hq
  · rw [hnb]
    apply List.Nodup.map_on
    · intro q1 hq1 q2 hq2 heq
      exact hinj q1 q2 (by have := mem_knnSelect_lt hq1; rwa [hcvlen] at this)
        (by have := mem_knnSelect_lt hq2; rwa [hcvlen] at this) heq
    · exact knnSelect_nodup d _ _ _
  · intro x hx y hy hyn hyne
    rw [hnb, List.mem_map] at hx
    obtain ⟨q, hq, hxeq⟩ := hx
    have hqlt : q < (validIndices coords).length := by
      have := mem_knnSelect_lt hq
      rwa [hcvlen] at this
    have hq2lt : (validIndices coords).indexOf y < (validIndices coords).length :=
      List.indexOf_lt_length.2 hy
    have hgety : (validIndices coords).getD ((validIndices coords).indexOf y) 0 = y := by
      rw [List.getD_eq_getElem _ _ hq2lt]
      exact List.getElem_indexOf hq2lt
    have hq2n : ¬ (validIndices coords).indexOf y ∈
        knnSelect d ((validIndices coords).map (coordAt coords))
          (kEff (validIndices coords).length)
          ((validIndices coords).indexOf i) := by
      intro hc
      apply hyn
      rw [hnb, List.mem_map]
      exact ⟨(validIndices coords).indexOf y, hc, hgety⟩
    have hle := knnSelect_nearest hq (by rw [hcvlen]; exact hq2lt) hq2n
    have hjq : (validIndices coords).indexOf i ≠ q := by
      intro hc
      rw [← hc] at hq
      exact hselfnot hq
    have hjq2 : (validIndices coords).indexOf i ≠ (validIndices coords).indexOf y := by
      intro hc
      apply hyne
      rw [← hgety, ← hc, hgetj]
    rw [distRow_coe d _ _ _ hjq, distRow_coe d _ _ _ hjq2,
      hcvq _ hj, hcvq _ hqlt, hcvq _ hq2lt, hgetj, hgety, hxeq] at hle
    exact WithTop.coe_le_coe.1 hle
  · unfold knn_smooth
    rw [if_neg (by omega)]
    rw [List.getD_eq_getElem _ _ (by simpa using hi), List.getElem_map]
    simp only [List.getElem_range, hv, if_true]
    rw [hnb, List.map_map]
    rfl

/-- Witness for C4 at hex 0 of the three-hex fixture. -/
theorem c4_knn_blend_witness :
    (knnNeighbors c4D c4Coords 0).length =
      min SMOOTH_K ((validIndices c4Coords).length - 1) ∧
    ¬ (0 : ℕ) ∈ knnNeighbors c4D c4Coords 0 ∧
    (knnNeighbors c4D c4Coords 0).Nodup ∧
    (∀ x ∈ knnNeighbors c4D c4Coords 0, x ∈ validIndices c4Coords) ∧
    (∀ x ∈ knnNeighbors c4D c4Coords 0, ∀ y ∈ validIndices c4Coords,
      ¬ y ∈ knnNeighbors c4D c4Coords 0 → y ≠ 0 →
      c4D (coordAt c4Coords 0).1 (coordAt c4Coords 0).2
        (coordAt c4Coords x).1 (coordAt c4Coords x).2 ≤
      c4D (coordAt c4Coords 0).1 (coordAt c4Coords 0).2
        (coordAt c4Coords y).1 (coordAt c4Coords y).2) ∧
    (knn_smooth c4D c4Coords c4Vals).getD 0 none =
      oblend (c4Vals.getD 0 none)
        (omean ((knnNeighbors c4D c4Coords 0).map
          (fun x => c4Vals.getD x none))) :=
  c4_knn_blend c4D c4Coords c4Vals 0
    (by simp [validIndices, c4Coords, List.range_succ, List.filter])
    (by norm_num [c4Coords]) rfl

/-- C7: a hex with a null coordinate never enters any smoothing pool,
its own smoothed value is its unsmoothed value, and when fewer than two
hexes have valid coordinates the smoothing pass returns the raw values
unchanged. -/
theorem c7_invalid_hexes_passthrough (d : ℚ → ℚ → ℚ → ℚ → ℚ)
    (coords : List (Option ℚ × Option ℚ)) (vals : List (Option ℚ)) :
    (∀ i, i < coords.length →
      ((coords.getD i (none, none)).1.isSome &&
       (coords.getD i (none, none)).2.isSome) = false →
      (knn_smooth d coords vals).getD i none = vals.getD i none) ∧
    (∀ i j, ((coords.getD j (none, none)).1.isSome &&
       (coords.getD j (none, none)).2.isSome) = false →
      ¬ j ∈ knnNeighbors d coords i) ∧
    ((validIndices coords).length < 2 → knn_smooth d coords vals = vals) := by
  refine ⟨?_, ?_, knn_smooth_of_few d coords vals⟩
  · intro i hi hv
    by_cases hm : (validIndices coords).length < 2
    · rw [knn_smooth_of_few d coords vals hm]
    · unfold knn_smooth
      rw [if_neg hm]
      rw [List.getD_eq_getElem _ _ (by simpa using hi), List.getElem_map]
      simp only [List.getElem_range, hv, Bool.false_eq_true, if_false]
  · intro i j hv hmem
    have hj : j ∈ validIndices coords := knnNeighbors_mem_valid d coords i j hmem
    rw [mem_validIndices] at hj
    rw [hj.2] at hv
    exact Bool.noConfusion hv

/-- Witness for C7 on a three-hex fixture whose middle hex has a null
latitude, and a two-hex fixture with a single valid hex. -/
theorem c7_invalid_hexes_passthrough_witness :
    (knn_smooth (fun _ _ _ _ => 0)
      [(some 0, some 0), (none, some 0), (some 10, some 0)]
      [some 1, some 2, some 4]).getD 1 none =
      [some (1 : ℚ), some 2, some 4].getD 1 none ∧
    ¬ (1 : ℕ) ∈ knnNeighbors (fun _ _ _ _ => 0)
      [(some 0, some 0), (none, some 0), (some 10, some 0)] 0 ∧
    knn_smooth (fun _ _ _ _ => 0) [(none, none), (some 5, some 5)]
      [some 1, none] = [some 1, none] := by
  refine ⟨?_, ?_, ?_⟩
  · exact (c7_invalid_hexes_passthrough (fun _ _ _ _ => 0)
      [(some 0, some 0), (none, some 0), (some 10, some 0)]
      [some 1, some 2, some 4]).1 1 (by norm_num) rfl
  · exact (c7_invalid_hexes_passthrough (fun _ _ _ _ => 0)
      [(some 0, some 0), (none, some 0), (some 10, some 0)]
      [some 1, some 2, some 4]).2.1 0 1 rfl
  · exact (c7_invalid_hexes_passthrough (fun _ _ _ _ => 0)
      [(none, none), (some 5, some 5)] [some 1, none]).2.2
      (by simp [validIndices, List.range_succ, List.filter])

end HexScore
